import Mathlib

/-!
Verification of the SSTV toolkit's signal-processing core.

The definitions below are shallow embeddings of the JavaScript sources
`src/utils/SSTVEncoder.js` and `src/utils/SSTVDecoder.js`.  JavaScript
numbers are modelled by exact rational arithmetic.  Because kernel
reduction of Mathlib's `ℚ` is not available, decoder-side code that must
be evaluated on concrete inputs is modelled over `JQ`, an explicit
numerator/denominator pair with sign-aware operations; `JQ.toRat`
interprets such a pair in `ℚ` and a family of lemmas transports each
operation.  Encoder-side code that is only reasoned about symbolically is
modelled over `ℚ` directly.  Sine waves are represented by the exact
phase of each sample (as a rational multiple of π); the emitted value is
`Real.sin (π * coeff)` in theorem statements.
-/

/-- Exact rational numbers as raw numerator/denominator pairs.  All pairs
built by the model have a positive denominator (`JQ.Wf`). -/
structure JQ where
  num : ℤ
  den : ℤ
deriving DecidableEq, Repr

namespace JQ

/-- Well-formedness: the denominator is positive. -/
def Wf (a : JQ) : Prop := 0 < a.den

/-- Interpretation into `ℚ`. -/
def toRat (a : JQ) : ℚ := (a.num : ℚ) / (a.den : ℚ)

/-- Embed an integer. -/
def ofInt (n : ℤ) : JQ := ⟨n, 1⟩

/-- Addition by cross multiplication. -/
def add (a b : JQ) : JQ := ⟨a.num * b.den + b.num * a.den, a.den * b.den⟩

/-- Subtraction by cross multiplication. -/
def sub (a b : JQ) : JQ := ⟨a.num * b.den - b.num * a.den, a.den * b.den⟩

/-- Negation. -/
def neg (a : JQ) : JQ := ⟨-a.num, a.den⟩

/-- Multiplication. -/
def mul (a b : JQ) : JQ := ⟨a.num * b.num, a.den * b.den⟩

/-- Division; the sign of the divisor's numerator is moved into the
numerator so that well-formedness is preserved for nonzero divisors. -/
def div (a b : JQ) : JQ :=
  if 0 ≤ b.num then ⟨a.num * b.den, a.den * b.num⟩
  else ⟨-(a.num * b.den), a.den * -b.num⟩

/-- Absolute value. -/
def abs (a : JQ) : JQ := ⟨|a.num|, a.den⟩

/-- Comparison `a ≤ b`, valid for well-formed operands. -/
def le (a b : JQ) : Prop := a.num * b.den ≤ b.num * a.den

/-- Comparison `a < b`, valid for well-formed operands. -/
def lt (a b : JQ) : Prop := a.num * b.den < b.num * a.den

instance : Add JQ := ⟨add⟩
instance : Sub JQ := ⟨sub⟩
instance : Neg JQ := ⟨neg⟩
instance : Mul JQ := ⟨mul⟩
instance : Div JQ := ⟨div⟩
instance : LE JQ := ⟨le⟩
instance : LT JQ := ⟨lt⟩
instance : OfNat JQ n := ⟨ofInt n⟩

instance decidableLE : DecidableRel ((· ≤ ·) : JQ → JQ → Prop) :=
  fun a b => inferInstanceAs (Decidable (a.num * b.den ≤ b.num * a.den))

instance decidableLT : DecidableRel ((· < ·) : JQ → JQ → Prop) :=
  fun a b => inferInstanceAs (Decidable (a.num * b.den < b.num * a.den))

/-- Floor to an integer (Euclidean division by the positive denominator). -/
def floor (a : JQ) : ℤ := a.num / a.den

/-- JavaScript `Math.round`: floor of `x + 1/2` (halves round toward +∞). -/
def round (a : JQ) : ℤ := (a + ⟨1, 2⟩).floor

/-- JavaScript truncation toward zero (`ToInt` conversion semantics). -/
def trunc (a : JQ) : ℤ := if (0 : JQ) ≤ a then a.floor else -((neg a).floor)

/-- JavaScript `Math.max` on two exact numbers. -/
def maxq (a b : JQ) : JQ := if a ≤ b then b else a

/-- JavaScript `Math.min` on two exact numbers. -/
def minq (a b : JQ) : JQ := if a ≤ b then a else b

end JQ

/-- JavaScript `Math.max(0, Math.min(255, z))` on an integer. -/
def clamp255 (z : ℤ) : ℤ := max 0 (min 255 z)

/-! ## Mode registry

Transcribed from `SSTV_MODES` in `src/utils/SSTVEncoder.js` (the module
imported by `src/utils/SSTVDecoder.js`).  Durations are seconds. -/

/-- Color format tag of a mode. -/
inductive ColorFormat where
  | YUV
  | RGB
  | PD
deriving DecidableEq, Repr

/-- A mode descriptor, one per supported SSTV mode. -/
structure SSTVMode where
  name : String
  visCode : ℕ
  scanTime : JQ
  lines : ℕ
  width : ℕ
  syncPulse : JQ
  syncPorch : JQ
  separatorPulse : Option JQ := none
  componentTime : Option JQ := none
  colorFormat : ColorFormat
deriving DecidableEq, Repr

/-- Robot 36 descriptor. -/
def ROBOT36 : SSTVMode :=
  { name := "Robot 36", visCode := 0x08, scanTime := ⟨15, 100⟩,
    lines := 240, width := 320, syncPulse := ⟨9, 1000⟩, syncPorch := ⟨3, 1000⟩,
    colorFormat := ColorFormat.YUV }

/-- PD 120 descriptor. -/
def PD120 : SSTVMode :=
  { name := "PD 120", visCode := 0x5f, scanTime := ⟨532, 1000⟩,
    lines := 496, width := 640, syncPulse := ⟨2, 100⟩, syncPorch := ⟨208, 100000⟩,
    componentTime := some ⟨1216, 10000⟩, colorFormat := ColorFormat.PD }

/-- Martin M1 descriptor. -/
def MARTIN1 : SSTVMode :=
  { name := "Martin M1", visCode := 0x2c, scanTime := ⟨146, 1000⟩,
    lines := 256, width := 320, syncPulse := ⟨4862, 1000000⟩,
    syncPorch := ⟨572, 1000000⟩, separatorPulse := some ⟨572, 1000000⟩,
    colorFormat := ColorFormat.RGB }

/-- Scottie S1 descriptor. -/
def SCOTTIE1 : SSTVMode :=
  { name := "Scottie S1", visCode := 0x3c, scanTime := ⟨138, 1000⟩,
    lines := 256, width := 320, syncPulse := ⟨9, 1000⟩, syncPorch := ⟨15, 10000⟩,
    separatorPulse := some ⟨15, 10000⟩, colorFormat := ColorFormat.RGB }

/-- The registry in `Object.entries` order. -/
def SSTV_MODES : List SSTVMode := [ROBOT36, PD120, MARTIN1, SCOTTIE1]

/-- The VIS lookup loop of `detectMode`: the first registry entry whose
`visCode` equals the decoded code. -/
def modeForVisCode (code : ℕ) : Option SSTVMode :=
  SSTV_MODES.find? (fun m => m.visCode == code)

/-! ## Encoder — tone synthesis (`src/utils/SSTVEncoder.js`)

The synthesizer keeps one running phase.  A sample whose exact phase is
`π * c` is represented by the coefficient `c : ℚ`; its value is
`Real.sin (π * c)` (the interpretation appears only in theorem
statements, so the state stays computable). -/

/-- JavaScript truncation toward zero, on `ℚ`. -/
def jsTruncQ (q : ℚ) : ℤ := if 0 ≤ q then ⌊q⌋ else -⌊-q⌋

/-- JavaScript `x % 2` (fmod, keeping the dividend's sign), on `ℚ`.  On
phase coefficients this models `phase %= 2 * Math.PI`. -/
def jsFmodTwo (x : ℚ) : ℚ := x - 2 * jsTruncQ (x / 2)

/-- JavaScript `Math.round` on `ℚ` (halves round toward +∞). -/
def jsRoundQ (q : ℚ) : ℤ := ⌊q + 1/2⌋

/-- JavaScript `Math.max(0, Math.min(255, Math.round(v)))` on `ℚ`. -/
def clampRound255 (v : ℚ) : ℤ := clamp255 (jsRoundQ v)

/-- State of the tone synthesizer: the running phase and the emitted
samples, both as coefficients of π. -/
structure SynthState where
  phaseCoeff : ℚ
  samples : List ℚ

/-- `addTone(samples, frequency, duration)`: append
`Math.floor(duration * sampleRate)` samples of `sin(phase)`, advancing
the phase by `2π·frequency/sampleRate` per sample; afterwards the phase
is reduced modulo 2π. -/
def addTone (rate : ℕ) (st : SynthState) (freq dur : ℚ) : SynthState :=
  let n : ℕ := (⌊dur * rate⌋).toNat
  let inc : ℚ := 2 * freq / rate
  { phaseCoeff := jsFmodTwo (st.phaseCoeff + n * inc),
    samples := st.samples ++ (List.range n).map (fun (i : ℕ) => st.phaseCoeff + (i : ℚ) * inc) }

/-- Frequency of VIS data bit `i` (LSB first): `FREQ_VIS_BIT1 = 1100` Hz
for a 1 bit, `FREQ_VIS_BIT0 = 1300` Hz for a 0 bit. -/
def visBitFreq (m : SSTVMode) (i : ℕ) : ℚ :=
  if (m.visCode >>> i) % 2 = 1 then 1100 else 1300

/-- Parity accumulator of `addVISCode` over the 7 VIS data bits. -/
def visParity (m : SSTVMode) : ℕ :=
  ((List.range 7).countP (fun i => (m.visCode >>> i) % 2 == 1)) % 2

/-- `addVISCode`: 300 ms leader at 1900 Hz, 10 ms break at 1200 Hz, 30 ms
start bit at 1900 Hz, 7 data bits (LSB first), parity bit, 30 ms stop bit
at 1200 Hz. -/
def addVISCode (rate : ℕ) (m : SSTVMode) (st : SynthState) : SynthState :=
  let st1 := addTone rate st 1900 (3/10)
  let st2 := addTone rate st1 1200 (1/100)
  let st3 := addTone rate st2 1900 (3/100)
  let st4 := (List.range 7).foldl
    (fun s i => addTone rate s (visBitFreq m i) (3/100)) st3
  let st5 := addTone rate st4 (if visParity m = 1 then 1100 else 1300) (3/100)
  addTone rate st5 1200 (3/100)

/-- Pixel byte to tone frequency:
`FREQ_BLACK + (value/255)·(FREQ_WHITE − FREQ_BLACK)`. -/
def valueToFreq (v : ℤ) : ℚ := 1500 + (v : ℚ) / 255 * (2300 - 1500)

/-- `addScanLine(samples, data, width, y, channel)` (RGB modes): `width`
pixel tones, each of the fixed duration `timePerPixel = scanTime/width`. -/
def addScanLine (rate : ℕ) (m : SSTVMode) (data : ℕ → ℕ) (w y channel : ℕ)
    (st : SynthState) : SynthState :=
  let timePerPixel : ℚ := m.scanTime.toRat / w
  (List.range w).foldl
    (fun s x => addTone rate s (valueToFreq (data ((y * w + x) * 4 + channel)))
      timePerPixel) st

/-- Luma formula `0.299·R + 0.587·G + 0.114·B` (full range). -/
def lumaF (r g b : ℚ) : ℚ := 299/1000 * r + 587/1000 * g + 114/1000 * b

/-- Chroma U formula `128 − 0.14713·R − 0.28886·G + 0.436·B`. -/
def chromaUF (r g b : ℚ) : ℚ :=
  128 + (-(14713/100000) * r - 28886/100000 * g + 436/1000 * b)

/-- Chroma V formula `128 + 0.615·R − 0.51499·G − 0.10001·B`. -/
def chromaVF (r g b : ℚ) : ℚ :=
  128 + (615/1000 * r - 51499/100000 * g - 10001/100000 * b)

/-- The 88 ms Y scan of `addScanLineYUV`: per-pixel sample boundaries
`floor(x/width · yScanSamples)`, luma clamped and rounded to a byte. -/
def yuvLumaScan (rate : ℕ) (data : ℕ → ℕ) (w y : ℕ) (st : SynthState) :
    SynthState :=
  let yScanSamples : ℤ := ⌊(88/1000 : ℚ) * rate⌋
  (List.range w).foldl (fun s x =>
    let idx := (y * w + x) * 4
    let lum := clampRound255 (lumaF (data idx) (data (idx+1)) (data (idx+2)))
    let freq := valueToFreq lum
    let pixelStart := ⌊((x : ℚ) / w) * yScanSamples⌋
    let pixelEnd := ⌊(((x : ℚ) + 1) / w) * yScanSamples⌋
    addTone rate s freq (((pixelEnd - pixelStart : ℤ) : ℚ) / rate)) st

/-- The byte sent for chroma sample `k` of line `y`: adjacent columns
averaged, V on even lines and U on odd lines, clamped and rounded. -/
def yuvChromaByte (data : ℕ → ℕ) (w y k : ℕ) : ℤ :=
  let x : ℕ := 2 * k
  let idx1 : ℕ := (y * w + x) * 4
  let idx2 : ℕ := (y * w + min (x+1) (w-1)) * 4
  let r := ((data idx1 : ℚ) + data idx2) / 2
  let g := ((data (idx1+1) : ℚ) + data (idx2+1)) / 2
  let b := ((data (idx1+2) : ℚ) + data (idx2+2)) / 2
  clampRound255 (if y % 2 = 0 then chromaVF r g b else chromaUF r g b)

/-- The 44 ms chroma scan of `addScanLineYUV` at half horizontal
resolution (the `x += 2` loop), with boundaries
`floor(chromaIndex/halfWidth · chromaScanSamples)`. -/
def yuvChromaScan (rate : ℕ) (data : ℕ → ℕ) (w y : ℕ) (st : SynthState) :
    SynthState :=
  let chromaScanSamples : ℤ := ⌊(44/1000 : ℚ) * rate⌋
  let halfWidth : ℚ := (w : ℚ) / 2
  (List.range ((w+1)/2)).foldl (fun s k =>
    let chromaIndex : ℚ := (((2 * k : ℕ) : ℚ)) / 2
    let freq := valueToFreq (yuvChromaByte data w y k)
    let cs := ⌊(chromaIndex / halfWidth) * chromaScanSamples⌋
    let ce := ⌊((chromaIndex + 1) / halfWidth) * chromaScanSamples⌋
    addTone rate s freq (((ce - cs : ℤ) : ℚ) / rate)) st

/-- `addScanLineYUV` (Robot 36): the 88 ms Y scan, a 4.5 ms separator
whose frequency encodes the line's chroma type (1500 Hz on even lines, V
follows; 2300 Hz on odd lines, U follows), a 1.5 ms porch at 1500 Hz,
and the 44 ms chroma scan. -/
def addScanLineYUV (rate : ℕ) (data : ℕ → ℕ) (w y : ℕ) (st : SynthState) :
    SynthState :=
  yuvChromaScan rate data w y
    (addTone rate
      (addTone rate (yuvLumaScan rate data w y st)
        (if y % 2 = 0 then 1500 else 2300) (45/10000))
      1500 (15/10000))

/-- The `encodeComponent` closure of `addScanLinePD`: `width` tones with
per-pixel boundaries `floor(x/width · componentSamples)`, the value
clamped and rounded to a byte. -/
def encodeComponent (rate : ℕ) (componentSamples : ℤ) (w : ℕ)
    (getValue : ℕ → ℚ) (st : SynthState) : SynthState :=
  (List.range w).foldl (fun s x =>
    let v := clampRound255 (getValue x)
    let freq := valueToFreq v
    let ps := ⌊((x : ℚ) / w) * componentSamples⌋
    let pe := ⌊(((x : ℚ) + 1) / w) * componentSamples⌋
    addTone rate s freq (((pe - ps : ℤ) : ℚ) / rate)) st

/-- `addScanLinePD`: sync, porch, then the components Y0, R−Y, B−Y, Y1
for the line pair `(y, min(y+1, lines−1))`. -/
def addScanLinePD (rate : ℕ) (m : SSTVMode) (data : ℕ → ℕ) (w y : ℕ)
    (st : SynthState) : SynthState :=
  let componentSamples : ℤ := ⌊(m.componentTime.getD 0).toRat * rate⌋
  let st1 := addTone rate st 1200 m.syncPulse.toRat
  let st2 := addTone rate st1 1500 m.syncPorch.toRat
  let y1 := min (y+1) (m.lines - 1)
  let avg := fun (x c : ℕ) =>
    ((data ((y * w + x) * 4 + c) : ℚ) + data ((y1 * w + x) * 4 + c)) / 2
  let st3 := encodeComponent rate componentSamples w (fun x =>
    let idx := (y * w + x) * 4
    lumaF (data idx) (data (idx+1)) (data (idx+2))) st2
  let st4 := encodeComponent rate componentSamples w (fun x =>
    let r := avg x 0
    let g := avg x 1
    let b := avg x 2
    128 + 701/1000 * (r - lumaF r g b)) st3
  let st5 := encodeComponent rate componentSamples w (fun x =>
    let r := avg x 0
    let g := avg x 1
    let b := avg x 2
    128 + 886/1000 * (b - lumaF r g b)) st4
  encodeComponent rate componentSamples w (fun x =>
    let idx := (y1 * w + x) * 4
    lumaF (data idx) (data (idx+1)) (data (idx+2))) st5

/-! ## WAVE writer and reader

`createWAV` from `src/utils/SSTVEncoder.js` emits a 44-byte RIFF header
followed by int16 little-endian PCM.  The reader is `findWavDataOffset`
plus `MockAudioContext.decodeAudioData` from the decode harness, which
walk the chunk list from offset 12 and read the `data` payload as 16-bit
little-endian mono PCM divided by 32768. -/

/-- Little-endian bytes of a 16-bit value (`DataView.setUint16`). -/
def u16le (v : ℕ) : List ℕ := [v % 256, v / 256 % 256]

/-- Little-endian bytes of a 32-bit value (`DataView.setUint32`). -/
def u32le (v : ℕ) : List ℕ :=
  [v % 256, v / 256 % 256, v / 65536 % 256, v / 16777216 % 256]

/-- `DataView.setInt16`: wrap the integer modulo 2¹⁶ and store the two
bytes little-endian. -/
def int16le (v : ℤ) : List ℕ :=
  [((v % 65536).toNat) % 256, ((v % 65536).toNat) / 256]

/-- JavaScript `Math.max(-1, Math.min(1, s))`. -/
def clampUnit (s : JQ) : JQ := JQ.maxq (JQ.ofInt (-1)) (JQ.minq (JQ.ofInt 1) s)

/-- Quantization of one sample by the writer: `clamp(s,−1,1) * 0x7fff`,
then the `setInt16` integer conversion (truncation toward zero). -/
def quantizeSample (s : JQ) : ℤ := (clampUnit s * JQ.ofInt 0x7fff).trunc

/-- The sample payload of the WAV file. -/
def sampleBytes : List JQ → List ℕ
  | [] => []
  | s :: rest => int16le (quantizeSample s) ++ sampleBytes rest

/-- The 44-byte canonical RIFF/WAVE header written by `createWAV` for
`n` samples. -/
def wavHeader (rate n : ℕ) : List ℕ :=
  [82, 73, 70, 70] ++ u32le (36 + n * 2) ++ [87, 65, 86, 69] ++
  [102, 109, 116, 32] ++ u32le 16 ++ u16le 1 ++ u16le 1 ++ u32le rate ++
  u32le (rate * 2) ++ u16le 2 ++ u16le 16 ++ [100, 97, 116, 97] ++
  u32le (n * 2)

/-- `createWAV(samples)`: header then quantized samples. -/
def createWAV (rate : ℕ) (samples : List JQ) : List ℕ :=
  wavHeader rate samples.length ++ sampleBytes samples

/-- Read one byte (out-of-range reads yield 0). -/
def byteAt (l : List ℕ) (i : ℕ) : ℕ := l.getD i 0

/-- `DataView.getUint32(i, true)`. -/
def getU32le (l : List ℕ) (i : ℕ) : ℕ :=
  byteAt l i + 256 * byteAt l (i+1) + 65536 * byteAt l (i+2) +
    16777216 * byteAt l (i+3)

/-- `DataView.getInt16(i, true)`. -/
def getI16le (l : List ℕ) (i : ℕ) : ℤ :=
  let u := byteAt l i + 256 * byteAt l (i+1)
  if u < 32768 then (u : ℤ) else (u : ℤ) - 65536

/-- The chunk walk of `findWavDataOffset`, with explicit fuel (each real
iteration advances by at least 8 bytes, so `l.length` steps suffice for
any input the walk terminates on; exhausted fuel returns the same 44
fallback as a failed walk). -/
def findWavDataOffsetAux (l : List ℕ) : ℕ → ℕ → ℕ
  | 0, _ => 44
  | fuel+1, offset =>
    if offset + 8 ≤ l.length then
      if byteAt l offset = 100 ∧ byteAt l (offset+1) = 97 ∧
          byteAt l (offset+2) = 116 ∧ byteAt l (offset+3) = 97 then
        offset + 8
      else
        findWavDataOffsetAux l fuel (offset + 8 + getU32le l (offset+4))
    else 44

/-- `findWavDataOffset(buffer)`: walk chunks from offset 12 until the
`data` chunk id is found; fall back to 44. -/
def findWavDataOffset (l : List ℕ) : ℕ := findWavDataOffsetAux l l.length 12

/-- `MockAudioContext.decodeAudioData`: locate the data chunk, then read
`(length − offset)/2` samples of `getInt16 / 32768`. -/
def decodeAudioData (l : List ℕ) : List JQ :=
  let dataOffset := findWavDataOffset l
  let numSamples := (l.length - dataOffset) / 2
  (List.range numSamples).map (fun i => ⟨getI16le l (dataOffset + i * 2), 32768⟩)

/-! ## Decoder (`src/utils/SSTVDecoder.js`)

The Goertzel estimators `detectFrequency` and `detectFrequencyRange`
measure tone frequencies of the real-valued audio; the claims below are
about the search and decode logic around them, so each estimator is
abstracted as a function from a start position and a window duration to
the measured frequency. -/

/-- Abstract frequency estimator (`detectFrequency` or
`detectFrequencyRange` applied to a fixed sample buffer). -/
abbrev Detector := ℤ → JQ → JQ

/-- A detector is well formed when every measurement is a well-formed
fraction. -/
def Detector.Wf (d : Detector) : Prop := ∀ p t, (d p t).Wf

/-- Number of iterations of a JavaScript loop
`for (let i = start; i < stop; i += step)` with positive `step`. -/
def loopCount (start stop step : ℤ) : ℕ :=
  if 0 < step then ((stop - start + step - 1) / step).toNat else 0

/-- The positions visited by such a loop, in order. -/
def loopPositions (start stop step : ℤ) : List ℤ :=
  (List.range (loopCount start stop step)).map (fun (k : ℕ) => start + (k : ℤ) * step)

/-- Acceptance test of `findSyncPulse` at position `i`: the whole window
and three sub-windows (at 0, 1/3 and 2/3 of the window) must each
measure within 200 Hz of the expected sync frequency. -/
def syncAccept (detect : Detector) (rate : ℕ) (expectedSync : JQ)
    (syncDuration : JQ) (i : ℤ) : Bool :=
  decide ((detect i syncDuration - expectedSync).abs < JQ.ofInt 200) &&
  (List.range 3).all (fun (j : ℕ) =>
    let checkPos := i + (syncDuration * JQ.ofInt rate * JQ.ofInt (j : ℤ) / JQ.ofInt 3).floor
    decide ((detect checkPos (syncDuration / JQ.ofInt 3) - expectedSync).abs <
      JQ.ofInt 200))

/-- `findSyncPulse(samples, startPos, endPos)`: scan forward from
`startPos` in `floor(0.0002·rate)`-sample steps up to
`min(endPos, length − window)`, returning the first accepted position
(the source returns −1 when none is found, modelled as `none`).  The
mode is always set at the call sites modelled here and every registry
`syncPulse` is nonzero, so `this.mode?.syncPulse || 0.005` is
`mode.syncPulse`. -/
def findSyncPulse (detect : Detector) (m : SSTVMode) (visFreqShift : JQ)
    (rate : ℕ) (len : ℤ) (startPos endPos : ℤ) : Option ℤ :=
  let syncDuration := JQ.maxq ⟨4, 1000⟩ m.syncPulse
  let samplesPerCheck := ((⟨2, 10000⟩ : JQ) * JQ.ofInt rate).floor
  let searchEnd := min endPos (len - (syncDuration * JQ.ofInt rate).floor)
  let expectedSync := JQ.ofInt 1200 + visFreqShift
  (loopPositions startPos searchEnd samplesPerCheck).find?
    (syncAccept detect rate expectedSync syncDuration)

/-- First-sync acquisition of `decodeImage`: search forward within one
line of `visEnd`, then within three lines, then from sample 0.  (Every
registry `scanTime` is nonzero, so `this.mode.scanTime || 0.15` is
`mode.scanTime`; `findSyncPulse(samples, 0)` defaults `endPos` to the
buffer length.) -/
def acquireFirstSync (detect : Detector) (m : SSTVMode) (shift : JQ)
    (rate : ℕ) (len visEnd : ℤ) : Option ℤ :=
  let lineSamplesInit := (m.scanTime * JQ.ofInt rate).floor
  match findSyncPulse detect m shift rate len visEnd (visEnd + lineSamplesInit) with
  | some p => some p
  | none =>
    match findSyncPulse detect m shift rate len visEnd
        (visEnd + lineSamplesInit * 3) with
    | some p => some p
    | none => findSyncPulse detect m shift rate len 0 len

/-- `decodeVIS(samples, startIdx, freqShift)`: seven successive 30 ms
data-bit windows (LSB first; a bit is 1 exactly when the measured
frequency is strictly below `1200 + freqShift`), then the parity-bit
window; returns the code together with the even-parity check
`ones % 2 === parityBit`. -/
def decodeVIS (detect : Detector) (rate : ℕ) (startIdx : ℤ)
    (freqShift : JQ) : ℕ × Bool :=
  let bitLen := ((⟨3, 100⟩ : JQ) * JQ.ofInt rate).floor
  let isOne : ℕ → Bool := fun bit =>
    decide (detect (startIdx + bit * bitLen) ⟨3, 100⟩ < JQ.ofInt 1200 + freqShift)
  let visCode := (List.range 7).foldl
    (fun acc bit => if isOne bit then acc ||| (1 <<< bit) else acc) 0
  let ones := (List.range 7).countP isOne
  let parityFreq := detect (startIdx + 7 * bitLen) ⟨3, 100⟩
  let parityBit : ℕ := if parityFreq < JQ.ofInt 1200 + freqShift then 1 else 0
  (visCode, ones % 2 == parityBit)

/-- The parity gate of `detectMode`: `if (!this.lastVisParityOk) continue`
discards the candidate, otherwise its VIS code is kept. -/
def visCandidate (detect : Detector) (rate : ℕ) (startIdx : ℤ)
    (freqShift : JQ) : Option ℕ :=
  let r := decodeVIS detect rate startIdx freqShift
  if r.2 then some r.1 else none

/-- State of the leader scan in `detectModeByTiming` (`runCount`,
`leaderEnd`, and whether the loop has broken out). -/
structure LeaderScanState where
  runCount : ℕ
  leaderEnd : ℤ
  broke : Bool
deriving DecidableEq, Repr

/-- One iteration of the leader scan: 50 ms chunks must measure within
150 Hz of 1900 Hz; after at least 4 consecutive chunks the leader end is
tracked, and the first non-leader chunk afterwards breaks the loop. -/
def leaderStep (detect : Detector) (chunkSamples : ℤ)
    (st : LeaderScanState) (i : ℤ) : LeaderScanState :=
  if st.broke then st
  else
    let f := detect i ⟨5, 100⟩
    if (f - JQ.ofInt 1900).abs < JQ.ofInt 150 then
      let rc := st.runCount + 1
      { runCount := rc,
        leaderEnd := if 4 ≤ rc then i + chunkSamples else st.leaderEnd,
        broke := false }
    else if 4 ≤ st.runCount ∧ 0 < st.leaderEnd then { st with broke := true }
    else { runCount := 0, leaderEnd := st.leaderEnd, broke := false }

/-- State of the sync-pulse scan in `detectModeByTiming` (collected sync
positions, most recent first; the last accepted sync; break flag). -/
structure SyncScanState where
  syncs : List ℤ
  lastSync : ℤ
  broke : Bool
deriving DecidableEq, Repr

/-- One iteration of the sync scan: accept 5 ms windows within 100 Hz of
1200 Hz that are more than 50 ms after the previous accepted sync; stop
after three syncs. -/
def syncScanStep (detect : Detector) (rate : ℕ)
    (st : SyncScanState) (i : ℤ) : SyncScanState :=
  if st.broke then st
  else
    let f := detect i ⟨5, 1000⟩
    if (f - JQ.ofInt 1200).abs < JQ.ofInt 100 then
      if st.lastSync = -1 ∨ ((⟨5, 100⟩ : JQ) * JQ.ofInt rate).floor < i - st.lastSync then
        let syncs := i :: st.syncs
        { syncs := syncs, lastSync := i, broke := 3 ≤ syncs.length }
      else st
    else st

/-- Expected inter-sync period used by the timing fallback:
`componentTime·4 + syncPulse + syncPorch` for PD modes, otherwise
`scanTime`. -/
def timingExpectedPeriod (m : SSTVMode) : JQ :=
  match m.colorFormat with
  | ColorFormat.PD => m.componentTime.getD 0 * JQ.ofInt 4 + m.syncPulse + m.syncPorch
  | _ => m.scanTime

/-- The leader-scan stage of `detectModeByTiming`. -/
def timingLeaderScan (detect : Detector) (rate : ℕ) (len : ℤ) : LeaderScanState :=
  let scanLimit := min len ((rate : ℤ) * 60)
  let chunkSamples := ((⟨5, 100⟩ : JQ) * JQ.ofInt rate).floor
  (loopPositions 0 scanLimit chunkSamples).foldl
    (leaderStep detect chunkSamples) ⟨0, -1, false⟩

/-- The sync-collection stage of `detectModeByTiming`: skip 0.5 s of VIS
after the leader, then scan up to 3 s in 2 ms steps, collecting up to
three sync pulses. -/
def timingSyncs (detect : Detector) (rate : ℕ) (len : ℤ) (leaderEnd : ℤ) :
    List ℤ :=
  let visSkip := ((⟨5, 10⟩ : JQ) * JQ.ofInt rate).floor
  let step := (JQ.ofInt rate * ⟨2, 1000⟩).floor
  let searchStart := leaderEnd + visSkip
  let maxSearch := min len (searchStart + (JQ.ofInt 3 * JQ.ofInt rate).floor)
  ((loopPositions searchStart maxSearch step).foldl
    (syncScanStep detect rate) ⟨[], -1, false⟩).syncs.reverse

/-- The inter-sync period:
`(syncs[last] − syncs[0]) / ((syncs.length − 1) · sampleRate)` seconds. -/
def timingPeriod (rate : ℕ) (syncs : List ℤ) : JQ :=
  JQ.ofInt (syncs.getLast?.getD 0 - syncs.headD 0) /
    JQ.ofInt (((syncs.length : ℤ) - 1) * rate)

/-- The mode-match stage: the first registry mode whose expected period
is within 10 % relative tolerance of the measured period. -/
def timingMatch (period : JQ) : Option SSTVMode :=
  SSTV_MODES.find? (fun m =>
    decide ((period - timingExpectedPeriod m).abs / timingExpectedPeriod m < ⟨1, 10⟩))

/-- `detectModeByTiming(samples)`: find a sustained 1900 Hz leader of at
least 4 consecutive 50 ms chunks, collect up to three 1200 Hz sync
pulses, compute the inter-sync period, and return the first matching
mode together with the first located sync (the value stored into
`visEndPos`). -/
def detectModeByTiming (detect : Detector) (rate : ℕ) (len : ℤ) :
    Option (SSTVMode × ℤ) :=
  let lState := timingLeaderScan detect rate len
  if lState.leaderEnd = -1 then none
  else
    let syncs := timingSyncs detect rate len lState.leaderEnd
    if syncs.length < 2 then none
    else
      match timingMatch (timingPeriod rate syncs) with
      | some m => some (m, syncs.headD 0)
      | none => none

/-- The line duration hard-coded in `estimateFreqOffset`:
`syncPulse + syncPorch + 0.088 + 0.0045 + 0.0015 + 0.044` seconds — the
Robot 36 line layout, used for every mode. -/
def estLineTime (m : SSTVMode) : JQ :=
  m.syncPulse + m.syncPorch + ⟨88, 1000⟩ + ⟨45, 10000⟩ + ⟨15, 10000⟩ + ⟨44, 1000⟩

/-- The sync re-location loop of `estimateFreqOffset`: for up to `fuel`
lines, re-find the sync in `[pos − tolerance, pos + tolerance]`, record
`measured − 1200` (the measurement window is `syncPulse` seconds), and
advance the cursor by `lineSamples`; the loop stops at the first line
whose sync is not found. -/
def collectOffsets (detect : Detector) (m : SSTVMode) (shift : JQ)
    (rate : ℕ) (len : ℤ) (lineSamples tolerance : ℤ) :
    ℕ → ℤ → List JQ
  | 0, _ => []
  | fuel+1, pos =>
    match findSyncPulse detect m shift rate len (pos - tolerance) (pos + tolerance) with
    | none => []
    | some syncPos =>
      (detect syncPos m.syncPulse - JQ.ofInt 1200) ::
        collectOffsets detect m shift rate len lineSamples tolerance fuel
          (syncPos + lineSamples)

/-- `estimateFreqOffset(samples, firstSyncPos)`: collect per-line sync
frequency offsets for up to 20 lines; with fewer than 5 offsets return
0, otherwise sort them and return the rounded median when its absolute
value exceeds 50 Hz, else 0. -/
def estimateFreqOffset (detect : Detector) (m : SSTVMode) (shift : JQ)
    (rate : ℕ) (len : ℤ) (firstSyncPos : ℤ) : ℤ :=
  let lineSamples := (estLineTime m * JQ.ofInt rate).floor
  let tolerance := (JQ.ofInt lineSamples * ⟨5, 100⟩).floor
  let offsets := collectOffsets detect m shift rate len lineSamples tolerance
    20 firstSyncPos
  if offsets.length < 5 then 0
  else
    let sorted := List.insertionSort (fun a b : JQ => a ≤ b) offsets
    let medianOffset := sorted.getD (offsets.length / 2) 0
    if JQ.ofInt 50 < medianOffset.abs then medianOffset.round else 0

/-- Claim reading of `estimateFreqOffset` (spec §4.7): the re-location
window is derived from the mode's expected line period, and the median
of the recorded offsets is returned whenever its absolute value exceeds
50 Hz, with no minimum on the number of offsets.  Defined only to
compare the claim's words against the implementation. -/
def estimateFreqOffsetClaim (detect : Detector) (m : SSTVMode) (shift : JQ)
    (rate : ℕ) (len : ℤ) (firstSyncPos : ℤ) : JQ :=
  let lineSamples := (timingExpectedPeriod m * JQ.ofInt rate).floor
  let tolerance := (JQ.ofInt lineSamples * ⟨5, 100⟩).floor
  let offsets := collectOffsets detect m shift rate len lineSamples tolerance
    20 firstSyncPos
  let sorted := List.insertionSort (fun a b : JQ => a ≤ b) offsets
  let medianOffset := sorted.getD (offsets.length / 2) 0
  if JQ.ofInt 50 < medianOffset.abs then medianOffset else 0

/-! ## Pixel buffer, scan-line decoders and color reconstruction

The RGBA pixel buffer is a total function from flat byte index to byte
value; stores are explicit single-cell updates, mirroring the in-place
writes of the source. -/

/-- Store one byte cell. -/
def writePix (buf : ℕ → ℕ) (i v : ℕ) : ℕ → ℕ := fun j => if j = i then v else buf j

/-- The buffer allocated by `decodeImage`: every RGB cell 0 and every
alpha cell 255, over `4·width·lines` cells. -/
def initPixels (m : SSTVMode) : ℕ → ℕ := fun i =>
  if i < m.width * m.lines * 4 then (if i % 4 = 3 then 255 else 0) else 0

/-- Frequency-to-byte mapping of the RGB and PD scan-line decoders:
`Math.max(0, Math.min(255, Math.round((freq − 1500)/(2300 − 1500)·255)))`. -/
def freqToValue (freq : JQ) : ℕ :=
  (clamp255 (((freq - JQ.ofInt 1500) / (JQ.ofInt 2300 - JQ.ofInt 1500) *
    JQ.ofInt 255).round)).toNat

/-- Frequency-to-byte mapping with the calibration offset applied to both
reference frequencies (YUV luma and chroma paths). -/
def freqToValueOff (offset : JQ) (freq : JQ) : ℕ :=
  let freqBlack := JQ.ofInt 1500 + offset
  let freqWhite := JQ.ofInt 2300 + offset
  (clamp255 (((freq - freqBlack) / (freqWhite - freqBlack) * JQ.ofInt 255).round)).toNat

/-- `decodeScanLine(samples, startPos, imageData, y, channel)` (RGB): for
pixel `x` the Goertzel window is
`[startPos + floor(x/width·totalSamples), startPos + floor((x+1)/width·totalSamples))`;
its measured frequency is mapped to a byte stored in the pixel's channel,
and the alpha cell is set to 255.  The loop breaks when the window start
runs past the end of the samples.  Returns the buffer and the cursor
`startPos + totalSamples`. -/
def decodeScanLine (detectR : Detector) (m : SSTVMode) (rate : ℕ) (len : ℤ)
    (startPos : ℤ) (y channel : ℕ) (buf : ℕ → ℕ) : (ℕ → ℕ) × ℤ :=
  let totalSamples := (m.scanTime * JQ.ofInt rate).floor
  let out := (List.range m.width).foldl (fun (bs : (ℕ → ℕ) × Bool) (x : ℕ) =>
    if bs.2 then bs
    else
      let startSample := (JQ.ofInt x / JQ.ofInt m.width * JQ.ofInt totalSamples).floor
      let endSample := ((JQ.ofInt x + JQ.ofInt 1) / JQ.ofInt m.width *
        JQ.ofInt totalSamples).floor
      let pos := startPos + startSample
      let dur := JQ.ofInt (endSample - startSample) / JQ.ofInt rate
      if len ≤ pos then (bs.1, true)
      else
        let value := freqToValue (detectR pos dur)
        let idx : ℕ := (y * m.width + x) * 4
        (writePix (writePix bs.1 (idx + channel) value) (idx + 3) 255, false))
    (buf, false)
  (out.1, startPos + totalSamples)

/-- `decodeScanLineYUV(samples, startPos, imageData, y)`: an 88 ms Y scan
with the same per-pixel boundaries, a widened Goertzel window of at least
`max(96, floor(totalSamples/width)·4)` samples capped at the scan end,
and the byte written to R, G and B with alpha 255. -/
def decodeScanLineYUV (detectR : Detector) (m : SSTVMode) (offset : JQ)
    (rate : ℕ) (len : ℤ) (startPos : ℤ) (y : ℕ) (buf : ℕ → ℕ) : (ℕ → ℕ) × ℤ :=
  let totalSamples := ((⟨88, 1000⟩ : JQ) * JQ.ofInt rate).floor
  let minWindowSamples := max 96 ((JQ.ofInt totalSamples / JQ.ofInt m.width).floor * 4)
  let out := (List.range m.width).foldl (fun (bs : (ℕ → ℕ) × Bool) (x : ℕ) =>
    if bs.2 then bs
    else
      let startSample := (JQ.ofInt x / JQ.ofInt m.width * JQ.ofInt totalSamples).floor
      let endSample := ((JQ.ofInt x + JQ.ofInt 1) / JQ.ofInt m.width *
        JQ.ofInt totalSamples).floor
      let pos := startPos + startSample
      let windowEnd := min (startPos + totalSamples)
        (pos + max (endSample - startSample) minWindowSamples)
      let dur := JQ.ofInt (windowEnd - pos) / JQ.ofInt rate
      if len ≤ pos then (bs.1, true)
      else
        let value := freqToValueOff offset (detectR pos dur)
        let idx : ℕ := (y * m.width + x) * 4
        (writePix (writePix (writePix (writePix bs.1 idx value) (idx + 1) value)
          (idx + 2) value) (idx + 3) 255, false))
    (buf, false)
  (out.1, startPos + totalSamples)

/-- The `decodeComponent` closure of `decodeScanLinePD`: the byte decoded
for pixel `x` of a 121.6 ms component starting at `componentStart`. -/
def decodeComponentPD (detectR : Detector) (rate : ℕ) (totalSamples : ℤ)
    (w : ℕ) (minWindowSamples : ℤ) (componentStart : ℤ) (x : ℕ) : ℕ :=
  let startSample := (JQ.ofInt x / JQ.ofInt w * JQ.ofInt totalSamples).floor
  let endSample := ((JQ.ofInt x + JQ.ofInt 1) / JQ.ofInt w * JQ.ofInt totalSamples).floor
  let pos := componentStart + startSample
  let windowEnd := min (componentStart + totalSamples)
    (pos + max (endSample - startSample) minWindowSamples)
  let dur := JQ.ofInt (windowEnd - pos) / JQ.ofInt rate
  freqToValue (detectR pos dur)

/-- `decodeScanLinePD(samples, startPos, imageData, chromaU, chromaV, y)`:
decode the components Y0, R−Y, B−Y, Y1 of a line pair; write Y0 and Y1 as
grayscale with alpha 255 into rows `y` and `min(y+1, lines−1)` and
duplicate R−Y / B−Y into both rows of the V / U planes.  Returns the new
buffer, both planes, and the cursor advanced by four components. -/
def decodeScanLinePD (detectR : Detector) (m : SSTVMode) (rate : ℕ)
    (startPos : ℤ) (y : ℕ) (buf chromaU chromaV : ℕ → ℕ) :
    ((ℕ → ℕ) × (ℕ → ℕ) × (ℕ → ℕ)) × ℤ :=
  let w := m.width
  let y1 := min (y + 1) (m.lines - 1)
  let totalSamples := ((m.componentTime.getD 0) * JQ.ofInt rate).floor
  let minWindowSamples := max 96 ((JQ.ofInt totalSamples / JQ.ofInt w).floor * 4)
  let y0values := decodeComponentPD detectR rate totalSamples w minWindowSamples startPos
  let ryValues := decodeComponentPD detectR rate totalSamples w minWindowSamples
    (startPos + totalSamples)
  let byValues := decodeComponentPD detectR rate totalSamples w minWindowSamples
    (startPos + totalSamples * 2)
  let y1values := decodeComponentPD detectR rate totalSamples w minWindowSamples
    (startPos + totalSamples * 3)
  let out := (List.range w).foldl
    (fun (s : (ℕ → ℕ) × (ℕ → ℕ) × (ℕ → ℕ)) x =>
      let idx0 := (y * w + x) * 4
      let b1 := writePix (writePix (writePix (writePix s.1 idx0 (y0values x))
        (idx0 + 1) (y0values x)) (idx0 + 2) (y0values x)) (idx0 + 3) 255
      let idx1 := (y1 * w + x) * 4
      let b2 := writePix (writePix (writePix (writePix b1 idx1 (y1values x))
        (idx1 + 1) (y1values x)) (idx1 + 2) (y1values x)) (idx1 + 3) 255
      let u := writePix (writePix s.2.1 (y * w + x) (byValues x)) (y1 * w + x) (byValues x)
      let v := writePix (writePix s.2.2 (y * w + x) (ryValues x)) (y1 * w + x) (ryValues x)
      (b2, u, v))
    (buf, chromaU, chromaV)
  (out, startPos + totalSamples * 4)

/-- JavaScript `value || 128` on a stored chroma byte (0 is falsy). -/
def or128 (v : ℕ) : ℕ := if v = 0 then 128 else v

/-- Red of `convertYUVtoRGB`: `clamp(round(Y + 1.402·(V − 128)))`. -/
def yuvR (Y V : ℕ) : ℕ :=
  (clamp255 ((JQ.ofInt Y + (⟨1402, 1000⟩ : JQ) * (JQ.ofInt V - JQ.ofInt 128)).round)).toNat

/-- Green of `convertYUVtoRGB`:
`clamp(round(Y − 0.344136·(U − 128) − 0.714136·(V − 128)))`. -/
def yuvG (Y U V : ℕ) : ℕ :=
  (clamp255 ((JQ.ofInt Y - (⟨344136, 1000000⟩ : JQ) * (JQ.ofInt U - JQ.ofInt 128) -
    (⟨714136, 1000000⟩ : JQ) * (JQ.ofInt V - JQ.ofInt 128)).round)).toNat

/-- Blue of `convertYUVtoRGB`: `clamp(round(Y + 1.772·(U − 128)))`. -/
def yuvB (Y U : ℕ) : ℕ :=
  (clamp255 ((JQ.ofInt Y + (⟨1772, 1000⟩ : JQ) * (JQ.ofInt U - JQ.ofInt 128)).round)).toNat

/-- Rows `evenLine ≤ ly ≤ oddLine` visited by the inner loop of
`convertYUVtoRGB` (its extra guard `ly < lines` is redundant because
`oddLine < lines` by construction). -/
def lyRange (evenLine oddLine : ℕ) : List ℕ :=
  (List.range (oddLine + 1 - evenLine)).map (evenLine + ·)

/-- The body of `convertYUVtoRGB` for one column `x` of the line pair
starting at even line `y`: V is read from the even line's V-plane, U from
the odd line's U-plane (`|| 128` applied to both), and each row of the
pair is rewritten from its own provisional luma `Y` with the shared
`(U, V)`. -/
def convertYUVtoRGBStep (m : SSTVMode) (chromaU chromaV : ℕ → ℕ) (y x : ℕ)
    (buf : ℕ → ℕ) : ℕ → ℕ :=
  let evenLine := y
  let oddLine := min (y + 1) (m.lines - 1)
  let V := or128 (chromaV (evenLine * m.width + x))
  let U := or128 (chromaU (oddLine * m.width + x))
  (lyRange evenLine oddLine).foldl (fun b ly =>
    let idx := (ly * m.width + x) * 4
    let Y := b idx
    writePix (writePix (writePix b idx (yuvR Y V)) (idx + 1) (yuvG Y U V))
      (idx + 2) (yuvB Y U))
    buf

/-- The even lines `0, 2, 4, …` visited by the outer loop (`y < lines`
stepping by 2). -/
def evenRows (lines : ℕ) : List ℕ := (List.range ((lines + 1) / 2)).map (2 * ·)

/-- `convertYUVtoRGB(imageData, chromaU, chromaV)`: for every even line
and column, reconstruct both rows of the pair in place. -/
def convertYUVtoRGB (m : SSTVMode) (chromaU chromaV : ℕ → ℕ)
    (buf : ℕ → ℕ) : ℕ → ℕ :=
  (evenRows m.lines).foldl (fun b y =>
    (List.range m.width).foldl (fun b2 x => convertYUVtoRGBStep m chromaU chromaV y x b2) b)
    buf

/-- Red of `convertPDtoRGB`: `clamp(round(Y + RYadj))`. -/
def pdR (Y : ℕ) (RYadj : ℤ) : ℕ :=
  (clamp255 ((JQ.ofInt ((Y : ℤ) + RYadj)).round)).toNat

/-- Green of `convertPDtoRGB`: `clamp(round(Y − 0.194·BYadj − 0.509·RYadj))`. -/
def pdG (Y : ℕ) (RYadj BYadj : ℤ) : ℕ :=
  (clamp255 ((JQ.ofInt Y - (⟨194, 1000⟩ : JQ) * JQ.ofInt BYadj -
    (⟨509, 1000⟩ : JQ) * JQ.ofInt RYadj).round)).toNat

/-- Blue of `convertPDtoRGB`: `clamp(round(Y + BYadj))`. -/
def pdB (Y : ℕ) (BYadj : ℤ) : ℕ :=
  (clamp255 ((JQ.ofInt ((Y : ℤ) + BYadj)).round)).toNat

/-- `convertPDtoRGB(imageData, chromaU, chromaV)`: every pixel is
rewritten from its provisional luma and the (128-centred) chroma
adjustments; alpha is untouched. -/
def convertPDtoRGB (m : SSTVMode) (chromaU chromaV : ℕ → ℕ)
    (buf : ℕ → ℕ) : ℕ → ℕ :=
  (List.range m.lines).foldl (fun b y =>
    (List.range m.width).foldl (fun b2 x =>
      let idx := (y * m.width + x) * 4
      let Y := b2 idx
      let RYadj : ℤ := (or128 (chromaV (y * m.width + x)) : ℤ) - 128
      let BYadj : ℤ := (or128 (chromaU (y * m.width + x)) : ℤ) - 128
      writePix (writePix (writePix b2 idx (pdR Y RYadj)) (idx + 1) (pdG Y RYadj BYadj))
        (idx + 2) (pdB Y BYadj)) b)
    buf

/-- One pixel-buffer pass of the per-line decode loop.  The cursor
positions are parameters: whatever positions the sync-tracking logic
produces, the pass writes the same cells.  (`decodeScanLineChroma`
writes only the chroma planes, never the pixel buffer, so it has no
pixel pass.) -/
inductive DecodePass where
  | rgbLine (detectR : Detector) (len startPos : ℤ) (y channel : ℕ)
  | yuvLine (detectR : Detector) (offset : JQ) (len startPos : ℤ) (y : ℕ)
  | pdLine (detectR : Detector) (chromaU chromaV : ℕ → ℕ) (startPos : ℤ) (y : ℕ)

/-- Apply one pass to the pixel buffer. -/
def applyPass (m : SSTVMode) (rate : ℕ) (buf : ℕ → ℕ) : DecodePass → (ℕ → ℕ)
  | DecodePass.rgbLine d len sp y ch => (decodeScanLine d m rate len sp y ch buf).1
  | DecodePass.yuvLine d off len sp y => (decodeScanLineYUV d m off rate len sp y buf).1
  | DecodePass.pdLine d cu cv sp y => (decodeScanLinePD d m rate sp y buf cu cv).1.1

/-- The color-reconstruction step of `decodeImage`, by color format. -/
def applyColorConvert (m : SSTVMode) (chromaU chromaV : ℕ → ℕ)
    (buf : ℕ → ℕ) : ℕ → ℕ :=
  match m.colorFormat with
  | ColorFormat.YUV => convertYUVtoRGB m chromaU chromaV buf
  | ColorFormat.PD => convertPDtoRGB m chromaU chromaV buf
  | ColorFormat.RGB => buf

/-- The pixel-producing skeleton of `decodeImage`: allocate the buffer
with alpha 255, acquire the first sync (one line forward, three lines
forward, then from 0), and on failure throw
`Could not find sync pulse. Make sure this is a valid SSTV transmission.`
before any pixel is produced; otherwise run the per-line passes and the
color reconstruction. -/
def decodeImagePixels (detect : Detector) (m : SSTVMode) (shift : JQ)
    (rate : ℕ) (len visEnd : ℤ) (passes : List DecodePass)
    (chromaU chromaV : ℕ → ℕ) : Except String (ℕ → ℕ) :=
  match acquireFirstSync detect m shift rate len visEnd with
  | none =>
    Except.error "Could not find sync pulse. Make sure this is a valid SSTV transmission."
  | some _ =>
    Except.ok (applyColorConvert m chromaU chromaV
      (passes.foldl (applyPass m rate) (initPixels m)))

/-! ## Concrete inputs used by witnesses and counterexamples -/

/-- Ideal detector for the VIS section the encoder emits for PD 120 at
48 kHz: window `i = pos/1440` (30 ms each) measures 1100 Hz when data
bit `i` of the registry VIS code is set and 1300 Hz otherwise — the same
bit selection as `addVISCode` — and the parity window (`i = 7`) measures
the even-parity bit 1300 Hz. -/
def pd120VISDetect : Detector := fun pos _ =>
  if (PD120.visCode >>> (pos / 1440).toNat) % 2 = 1 then ⟨1100, 1⟩ else ⟨1300, 1⟩

/-- Detector for the `estimateFreqOffset` counterexample on Robot 36:
every window before sample 15000 measures 1300 Hz (sync shifted by
+100 Hz), later windows 1900 Hz, so exactly three lines re-locate. -/
def estOffsetDetectA : Detector := fun pos _ =>
  if pos < 15000 then ⟨1300, 1⟩ else ⟨1900, 1⟩

/-- Detector for the `estimateFreqOffset` counterexample on PD 120:
1300 Hz around the first sync and around one true line period
(24407 samples) later, 1900 Hz elsewhere. -/
def estOffsetDetectB : Detector := fun pos _ =>
  if (600 ≤ pos ∧ pos ≤ 1400) ∨ (24807 ≤ pos ∧ pos ≤ 26007) then ⟨1300, 1⟩
  else ⟨1900, 1⟩

/-- Detector for the `detectModeByTiming` witness: a 1900 Hz leader over
the first 9600 samples, 1200 Hz sync pulses at samples 33600, 40800 and
48000 (one Robot 36 line period apart), 1500 Hz elsewhere. -/
def timingDetect : Detector := fun pos _ =>
  if pos = 33600 ∨ pos = 40800 ∨ pos = 48000 then ⟨1200, 1⟩
  else if pos < 9600 then ⟨1900, 1⟩ else ⟨1500, 1⟩

/-- Clamp to `[−1, 1]` on `ℚ` (statement-level mirror of
`Math.max(-1, Math.min(1, s))`). -/
def clampUnitQ (q : ℚ) : ℚ := max (-1) (min 1 q)

/-! ## Theorems

First the transport lemmas for `JQ`, then the claim theorems C1–C10 with
their witnesses and counterexamples. -/

set_option maxRecDepth 8000

namespace JQ

theorem wf_ofInt (n : ℤ) : (ofInt n).Wf := by simp [ofInt, Wf]

theorem wf_add {a b : JQ} (ha : a.Wf) (hb : b.Wf) : (a + b).Wf :=
  mul_pos ha hb

theorem wf_sub {a b : JQ} (ha : a.Wf) (hb : b.Wf) : (a - b).Wf :=
  mul_pos ha hb

theorem wf_neg {a : JQ} (ha : a.Wf) : (neg a).Wf := ha

theorem wf_mul {a b : JQ} (ha : a.Wf) (hb : b.Wf) : (a * b).Wf :=
  mul_pos ha hb

theorem wf_abs {a : JQ} (ha : a.Wf) : a.abs.Wf := ha

theorem wf_div {a b : JQ} (ha : a.Wf) (hb : b.Wf) (hnz : b.num ≠ 0) :
    (a / b).Wf := by
  show (div a b).Wf
  unfold div
  rcases lt_or_gt_of_ne hnz with h | h
  · rw [if_neg (by omega)]
    exact mul_pos ha (by omega)
  · rw [if_pos (by omega)]
    exact mul_pos ha h

theorem toRat_ofInt (n : ℤ) : (ofInt n).toRat = (n : ℚ) := by
  simp [ofInt, toRat]

theorem toRat_ofNat (n : ℕ) : (OfNat.ofNat n : JQ).toRat = (n : ℚ) := by
  simp [OfNat.ofNat, toRat_ofInt]

theorem toRat_add {a b : JQ} (ha : a.Wf) (hb : b.Wf) :
    (a + b).toRat = a.toRat + b.toRat := by
  have ha' : (a.den : ℚ) ≠ 0 := Int.cast_ne_zero.mpr (by exact ha.ne')
  have hb' : (b.den : ℚ) ≠ 0 := Int.cast_ne_zero.mpr (by exact hb.ne')
  show (add a b).toRat = _
  unfold add toRat
  push_cast
  field_simp <;> ring

theorem toRat_sub {a b : JQ} (ha : a.Wf) (hb : b.Wf) :
    (a - b).toRat = a.toRat - b.toRat := by
  have ha' : (a.den : ℚ) ≠ 0 := Int.cast_ne_zero.mpr (by exact ha.ne')
  have hb' : (b.den : ℚ) ≠ 0 := Int.cast_ne_zero.mpr (by exact hb.ne')
  show (sub a b).toRat = _
  unfold sub toRat
  push_cast
  field_simp <;> ring

theorem toRat_neg (a : JQ) : (neg a).toRat = -a.toRat := by
  unfold neg toRat
  push_cast
  ring

theorem toRat_mul {a b : JQ} (ha : a.Wf) (hb : b.Wf) :
    (a * b).toRat = a.toRat * b.toRat := by
  have ha' : (a.den : ℚ) ≠ 0 := Int.cast_ne_zero.mpr (by exact ha.ne')
  have hb' : (b.den : ℚ) ≠ 0 := Int.cast_ne_zero.mpr (by exact hb.ne')
  show (mul a b).toRat = _
  unfold mul toRat
  push_cast
  field_simp

theorem toRat_div {a b : JQ} (ha : a.Wf) (hb : b.Wf) (hnz : b.num ≠ 0) :
    (a / b).toRat = a.toRat / b.toRat := by
  have ha' : (a.den : ℚ) ≠ 0 := Int.cast_ne_zero.mpr (by exact ha.ne')
  have hb' : (b.den : ℚ) ≠ 0 := Int.cast_ne_zero.mpr (by exact hb.ne')
  have hn' : (b.num : ℚ) ≠ 0 := Int.cast_ne_zero.mpr hnz
  show (div a b).toRat = _
  unfold div toRat
  by_cases h : 0 ≤ b.num
  · rw [if_pos h]
    push_cast
    field_simp <;> ring
  · rw [if_neg h]
    push_cast
    field_simp <;> ring

theorem toRat_abs {a : JQ} (ha : a.Wf) : a.abs.toRat = |a.toRat| := by
  have ha' : (0 : ℚ) < (a.den : ℚ) := by exact_mod_cast (ha : 0 < a.den)
  unfold abs toRat
  rw [abs_div, abs_of_pos ha']
  push_cast
  rfl

theorem le_iff {a b : JQ} (ha : a.Wf) (hb : b.Wf) :
    a ≤ b ↔ a.toRat ≤ b.toRat := by
  have ha' : (0 : ℚ) < (a.den : ℚ) := by exact_mod_cast ha
  have hb' : (0 : ℚ) < (b.den : ℚ) := by exact_mod_cast hb
  show le a b ↔ _
  unfold le toRat
  rw [div_le_div_iff ha' hb']
  constructor
  · intro h; exact_mod_cast h
  · intro h; exact_mod_cast h

theorem lt_iff {a b : JQ} (ha : a.Wf) (hb : b.Wf) :
    a < b ↔ a.toRat < b.toRat := by
  have ha' : (0 : ℚ) < (a.den : ℚ) := by exact_mod_cast ha
  have hb' : (0 : ℚ) < (b.den : ℚ) := by exact_mod_cast hb
  show lt a b ↔ _
  unfold lt toRat
  rw [div_lt_div_iff ha' hb']
  constructor
  · intro h; exact_mod_cast h
  · intro h; exact_mod_cast h

theorem floor_eq {a : JQ} (ha : a.Wf) : a.floor = ⌊a.toRat⌋ := by
  unfold floor toRat
  rcases Int.eq_ofNat_of_zero_le (ha : 0 < a.den).le with ⟨d, hd⟩
  rw [hd]
  push_cast
  rw [Rat.floor_intCast_div_natCast]

theorem round_eq {a : JQ} (ha : a.Wf) : a.round = ⌊a.toRat + 1/2⌋ := by
  unfold round
  have h2 : (JQ.mk 1 2).Wf := by norm_num [Wf]
  rw [floor_eq (wf_add ha h2), toRat_add ha h2]
  norm_num [toRat]

end JQ

/-! ### C2 — PD 120 VIS code -/

/-- C2, counterexample: the claim states that the mode registry's PD 120
descriptor has `visCode` 0x5D (93); in the registry of
`src/utils/SSTVEncoder.js` (the module the decoder imports) it is 0x5F
(95), so the claim is false. -/
theorem c2_counterexample : ¬ (PD120.visCode = 0x5d) := by decide

/-- C2 (amended): the PD 120 descriptor's VIS code is 0x5F (95); the
encoder's VIS data bits for PD 120 are the bits of 0x5F (1100 Hz for 1,
1300 Hz for 0, LSB first); the VIS decoder applied to those ideal
emitted tones returns 0x5F with the parity check passing; and the VIS
lookup maps 0x5F to PD 120 while 0x5D matches no registry mode. -/
theorem c2_pd120_viscode :
    PD120.visCode = 0x5f ∧
    (∀ i, i < 7 →
      visBitFreq PD120 i = (if (0x5f >>> i) % 2 = 1 then 1100 else 1300)) ∧
    (decodeVIS pd120VISDetect 48000 0 ⟨0, 1⟩).1 = PD120.visCode ∧
    (decodeVIS pd120VISDetect 48000 0 ⟨0, 1⟩).2 = true ∧
    modeForVisCode 0x5f = some PD120 ∧
    modeForVisCode 0x5d = none := by
  refine ⟨rfl, ?_, by decide, by decide, by decide, by decide⟩
  intro i hi
  interval_cases i <;> rfl

/-! ### Tone-length lemmas (used by C1 and C9) -/

theorem addTone_samples_length (rate : ℕ) (st : SynthState) (freq dur : ℚ) :
    (addTone rate st freq dur).samples.length
      = st.samples.length + (⌊dur * rate⌋).toNat := by
  simp only [addTone, List.length_append, List.length_map, List.length_range]

theorem foldl_addTone_const_length (rate : ℕ) (freqOf : ℕ → ℚ) (dur : ℚ)
    (l : List ℕ) (st : SynthState) :
    (l.foldl (fun s x => addTone rate s (freqOf x) dur) st).samples.length
      = st.samples.length + l.length * (⌊dur * rate⌋).toNat := by
  induction l generalizing st with
  | nil => simp
  | cons a t ih =>
    simp only [List.foldl_cons, ih, addTone_samples_length, List.length_cons]
    ring

theorem foldl_addTone_bounds_length (rate w : ℕ) (freqOf : ℕ → ℚ)
    (bs be : ℕ → ℤ) (st : SynthState) (hr : 0 < rate) (hw : 0 < w)
    (hlink : ∀ x, x + 1 < w → be x = bs (x + 1))
    (hmono : ∀ x, x < w → bs x ≤ be x)
    (h0 : bs 0 = 0) :
    ((List.range w).foldl (fun s x => addTone rate s (freqOf x)
        (((be x - bs x : ℤ) : ℚ) / rate)) st).samples.length
      = st.samples.length + (be (w - 1)).toNat := by
  have hr' : ((rate : ℚ)) ≠ 0 := by positivity
  have hdur : ∀ d : ℤ, ⌊((d : ℚ) / rate) * rate⌋ = d := by
    intro d
    have : ((d : ℚ) / rate) * rate = (d : ℚ) := by field_simp
    rw [this, Int.floor_intCast]
  -- nonnegativity of all boundaries below `w`
  have hnn : ∀ x, x < w → 0 ≤ bs x := by
    intro x
    induction x with
    | zero => intro _; omega
    | succ n ihn =>
      intro hx
      have h1 : n < w := by omega
      have := hmono n h1
      have hlk := hlink n (by omega)
      have := ihn (by omega)
      omega
  -- main induction over the processed prefix
  suffices h : ∀ n, 0 < n → n ≤ w →
      ((List.range n).foldl (fun s x => addTone rate s (freqOf x)
        (((be x - bs x : ℤ) : ℚ) / rate)) st).samples.length
      = st.samples.length + (be (n - 1)).toNat by
    exact h w hw le_rfl
  intro n
  induction n with
  | zero => omega
  | succ n ihn =>
    intro _ hle
    rw [List.range_succ, List.foldl_append]
    simp only [List.foldl_cons, List.foldl_nil]
    rw [addTone_samples_length, hdur]
    rcases Nat.eq_zero_or_pos n with h | h
    · subst h
      simp [h0]
    · rw [ihn h (by omega)]
      have hlk := hlink (n - 1) (by omega)
      have h1 : bs n ≤ be n := hmono n (by omega)
      have h2 : bs (n - 1) ≤ be (n - 1) := hmono (n - 1) (by omega)
      have h3 : 0 ≤ bs (n - 1) := hnn (n - 1) (by omega)
      have hn1 : n - 1 + 1 = n := by omega
      rw [hn1] at hlk
      simp only [Nat.add_sub_cancel]
      omega

theorem encodeComponent_samples_length (rate : ℕ) (T : ℤ) (w : ℕ) (gv : ℕ → ℚ)
    (st : SynthState) (hr : 0 < rate) (hT : 0 ≤ T) (hw : 0 < w) :
    (encodeComponent rate T w gv st).samples.length = st.samples.length + T.toNat := by
  have hw' : (0 : ℚ) < (w : ℚ) := by exact_mod_cast hw
  have h := foldl_addTone_bounds_length rate w
    (fun x => valueToFreq (clampRound255 (gv x)))
    (fun x => ⌊((x : ℚ) / w) * T⌋) (fun x => ⌊(((x : ℚ) + 1) / w) * T⌋) st hr hw
    (by
      intro x _
      congr 1
      push_cast
      ring)
    (by
      intro x _
      apply Int.floor_le_floor
      apply mul_le_mul_of_nonneg_right _ (by exact_mod_cast hT)
      gcongr
      linarith)
    (by simp)
  have hend : ⌊((((w - 1 : ℕ) : ℚ) + 1) / w) * T⌋ = T := by
    have : (((w - 1 : ℕ) : ℚ) + 1) = (w : ℚ) := by
      have : (1 : ℕ) ≤ w := hw
      push_cast [Nat.cast_sub this]
      ring
    rw [this, div_self (ne_of_gt hw'), one_mul, Int.floor_intCast]
  simp only [] at h
  rw [hend] at h
  exact h


theorem addScanLine_samples_length (rate : ℕ) (m : SSTVMode) (data : ℕ → ℕ)
    (w y channel : ℕ) (st : SynthState) :
    (addScanLine rate m data w y channel st).samples.length
      = st.samples.length + w * (⌊(m.scanTime.toRat / w) * rate⌋).toNat := by
  have h := foldl_addTone_const_length rate
    (fun x => valueToFreq (data ((y * w + x) * 4 + channel))) (m.scanTime.toRat / w)
    (List.range w) st
  simpa using h

theorem yuvLumaScan_eq_encodeComponent (rate : ℕ) (data : ℕ → ℕ) (w y : ℕ)
    (st : SynthState) :
    yuvLumaScan rate data w y st
      = encodeComponent rate ⌊(88/1000 : ℚ) * rate⌋ w
          (fun x => lumaF (data ((y * w + x) * 4)) (data ((y * w + x) * 4 + 1))
            (data ((y * w + x) * 4 + 2))) st := rfl

theorem yuvLumaScan_samples_length (data : ℕ → ℕ) (y : ℕ) (st : SynthState) :
    (yuvLumaScan 48000 data 320 y st).samples.length
      = st.samples.length + 4224 := by
  rw [yuvLumaScan_eq_encodeComponent,
    encodeComponent_samples_length 48000 _ 320 _ st (by norm_num)
      (by norm_num) (by norm_num)]
  have h4224 : (⌊(88/1000 : ℚ) * ((48000 : ℕ) : ℚ)⌋ : ℤ) = 4224 := by norm_num
  rw [h4224]
  omega

theorem yuvChromaScan_samples_length (data : ℕ → ℕ) (y : ℕ) (st : SynthState) :
    (yuvChromaScan 48000 data 320 y st).samples.length
      = st.samples.length + 2112 := by
  have h := foldl_addTone_bounds_length 48000 ((320+1)/2)
    (fun k => valueToFreq (yuvChromaByte data 320 y k))
    (fun k => ⌊((((2 * k : ℕ) : ℚ) / 2) / (((320 : ℕ) : ℚ) / 2)) *
      (⌊(44/1000 : ℚ) * ((48000 : ℕ) : ℚ)⌋ : ℤ)⌋)
    (fun k => ⌊((((2 * k : ℕ) : ℚ) / 2 + 1) / (((320 : ℕ) : ℚ) / 2)) *
      (⌊(44/1000 : ℚ) * ((48000 : ℕ) : ℚ)⌋ : ℤ)⌋)
    st (by norm_num) (by norm_num)
    (by
      intro k _
      congr 1
      push_cast
      ring)
    (by
      intro k _
      apply Int.floor_le_floor
      have hT : (0 : ℚ) ≤ ((⌊(44/1000 : ℚ) * ((48000 : ℕ) : ℚ)⌋ : ℤ) : ℚ) := by norm_num
      apply mul_le_mul_of_nonneg_right _ hT
      apply div_le_div_of_nonneg_right (by linarith) (by positivity))
    (by norm_num)
  simp only [] at h
  have hend : (⌊((((2 * (((320+1)/2 : ℕ) - 1) : ℕ) : ℚ) / 2 + 1) / (((320 : ℕ) : ℚ) / 2)) *
      (⌊(44/1000 : ℚ) * ((48000 : ℕ) : ℚ)⌋ : ℤ)⌋) = 2112 := by norm_num
  rw [hend] at h
  exact h.trans (by omega)

theorem addScanLineYUV_samples_length (data : ℕ → ℕ) (y : ℕ) (st : SynthState) :
    (addScanLineYUV 48000 data 320 y st).samples.length
      = st.samples.length + 6624 := by
  unfold addScanLineYUV
  rw [yuvChromaScan_samples_length, addTone_samples_length, addTone_samples_length,
    yuvLumaScan_samples_length]
  have h1 : (⌊(45/10000 : ℚ) * ((48000 : ℕ) : ℚ)⌋ : ℤ) = 216 := by norm_num
  have h2 : (⌊(15/10000 : ℚ) * ((48000 : ℕ) : ℚ)⌋ : ℤ) = 72 := by norm_num
  rw [h1, h2]
  omega

/-! ### C1 — sample-accurate pixel boundaries -/

/-- C1: the claim requires every scan loop to derive pixel boundaries
from `floor(k/N · totalSamples)` and consequently to span exactly
`totalSamples = floor(scanTime · sampleRate)` samples.  The YUV and PD
encoder loops and the decoder loops do this, but the encoder's RGB
`addScanLine` computes the fixed duration `scanTime/width` per pixel and
sums `width` independent floors: at 48 kHz a Martin M1 channel scan
emits `320 · ⌊21.9⌋ = 6720` samples instead of
`⌊0.146 · 48000⌋ = 7008` — the exact failure mode the specification's
own design notes call the repaired root cause.  Conjuncts: the Martin M1
RGB scan length; the required total; their disagreement; exactness of
the PD `encodeComponent` boundary loop for every rate, width and
component length; exactness of the full Robot 36 YUV line
(88 ms + 4.5 ms + 1.5 ms + 44 ms = 6624 samples at 48 kHz); and the
decoder's RGB scan cursor advancing by exactly `totalSamples`. -/
theorem c1_rgb_encoder_sums_fixed_pixel_durations :
    (∀ (data : ℕ → ℕ) (y channel : ℕ) (st : SynthState),
      (addScanLine 48000 MARTIN1 data MARTIN1.width y channel st).samples.length
        = st.samples.length + 6720) ∧
    ⌊MARTIN1.scanTime.toRat * ((48000 : ℕ) : ℚ)⌋ = 7008 ∧
    (6720 : ℕ) ≠ 7008 ∧
    (∀ (rate : ℕ) (T : ℤ) (w : ℕ) (gv : ℕ → ℚ) (st : SynthState),
      0 < rate → 0 ≤ T → 0 < w →
      (encodeComponent rate T w gv st).samples.length
        = st.samples.length + T.toNat) ∧
    (∀ (data : ℕ → ℕ) (y : ℕ) (st : SynthState),
      (addScanLineYUV 48000 data 320 y st).samples.length
        = st.samples.length + 6624) ∧
    (∀ (detectR : Detector) (m : SSTVMode) (rate : ℕ) (len startPos : ℤ)
        (y ch : ℕ) (buf : ℕ → ℕ),
      (decodeScanLine detectR m rate len startPos y ch buf).2
        = startPos + (m.scanTime * JQ.ofInt rate).floor) := by
  refine ⟨?_, ?_, by decide, ?_, ?_, ?_⟩
  · intro data y channel st
    rw [addScanLine_samples_length]
    have h21 : ⌊(MARTIN1.scanTime.toRat / ((MARTIN1.width : ℕ) : ℚ)) * ((48000 : ℕ) : ℚ)⌋ = 21 := by
      simp only [MARTIN1, JQ.toRat]
      norm_num
    rw [h21]
    simp [MARTIN1]
  · simp only [MARTIN1, JQ.toRat]
    norm_num
  · intro rate T w gv st hr hT hw
    exact encodeComponent_samples_length rate T w gv st hr hT hw
  · intro data y st
    exact addScanLineYUV_samples_length data y st
  · intro detectR m rate len startPos y ch buf
    rfl

/-! ### C9 — tone synthesis -/

theorem jsFmodTwo_nonneg_lt_two (x : ℚ) (hx : 0 ≤ x) :
    jsFmodTwo x = x - 2 * ⌊x / 2⌋ ∧ 0 ≤ jsFmodTwo x ∧ jsFmodTwo x < 2 := by
  have htr : jsTruncQ (x / 2) = ⌊x / 2⌋ := by
    unfold jsTruncQ
    rw [if_pos (by positivity)]
  have heq : jsFmodTwo x = x - 2 * ⌊x / 2⌋ := by
    unfold jsFmodTwo
    rw [htr]
  refine ⟨heq, ?_, ?_⟩
  · rw [heq]
    have := Int.floor_le (x / 2)
    linarith
  · rw [heq]
    have := Int.lt_floor_add_one (x / 2)
    linarith

/-- C9: `addTone(freq, duration)` appends exactly
`floor(duration · sampleRate)` samples; appended sample `k` is
`sin(phase)` at phase `π·(c₀ + k · 2·freq/rate)`, continuing from the
pre-call phase coefficient `c₀` and advancing by `2π·freq/rate` per
sample; every sample value `sin(π·c)` lies in `[−1, 1]`; and after the
call the phase field equals the advanced total reduced mod 2π (an exact
integer multiple of 2π below the total, landing in `[0, 2π)`), so the
sine is continuous across the call boundary. -/
theorem c9_addTone_appends_and_reduces_phase (rate : ℕ) (st : SynthState) (freq dur : ℚ)
    (hrate : 0 < rate) (hfreq : 0 ≤ freq) (hphase : 0 ≤ st.phaseCoeff) :
    (addTone rate st freq dur).samples.length
      = st.samples.length + (⌊dur * rate⌋).toNat ∧
    (∀ k, k < (⌊dur * rate⌋).toNat →
      (addTone rate st freq dur).samples.getD (st.samples.length + k) 0
        = st.phaseCoeff + k * (2 * freq / rate)) ∧
    (∀ c ∈ (addTone rate st freq dur).samples,
      -1 ≤ Real.sin (Real.pi * (c : ℝ)) ∧ Real.sin (Real.pi * (c : ℝ)) ≤ 1) ∧
    (∃ m : ℤ, (addTone rate st freq dur).phaseCoeff
        = st.phaseCoeff + ((⌊dur * rate⌋).toNat : ℚ) * (2 * freq / rate) - 2 * m) ∧
    0 ≤ (addTone rate st freq dur).phaseCoeff ∧
    (addTone rate st freq dur).phaseCoeff < 2 ∧
    Real.sin (Real.pi * ((addTone rate st freq dur).phaseCoeff : ℝ))
      = Real.sin (Real.pi *
          ((st.phaseCoeff + ((⌊dur * rate⌋).toNat : ℚ) * (2 * freq / rate)) : ℝ)) := by
  have htot : 0 ≤ st.phaseCoeff + ((⌊dur * rate⌋).toNat : ℚ) * (2 * freq / rate) := by
    have : (0 : ℚ) ≤ ((⌊dur * rate⌋).toNat : ℚ) := by positivity
    have h2 : (0 : ℚ) ≤ 2 * freq / rate := by positivity
    positivity
  obtain ⟨heq, hnn, hlt⟩ := jsFmodTwo_nonneg_lt_two
    (st.phaseCoeff + ((⌊dur * rate⌋).toNat : ℚ) * (2 * freq / rate)) htot
  have hphase' : (addTone rate st freq dur).phaseCoeff
      = jsFmodTwo (st.phaseCoeff + ((⌊dur * rate⌋).toNat : ℚ) * (2 * freq / rate)) := rfl
  refine ⟨addTone_samples_length rate st freq dur, ?_, ?_, ?_, ?_, ?_, ?_⟩
  · intro k hk
    show (st.samples ++ (List.range (⌊dur * rate⌋).toNat).map
      (fun (i : ℕ) => st.phaseCoeff + (i : ℚ) * (2 * freq / rate))).getD
        (st.samples.length + k) 0 = _
    rw [List.getD_eq_getElem?_getD, List.getElem?_append_right (by omega),
      Nat.add_sub_cancel_left, List.getElem?_map, List.getElem?_range hk]
    rfl
  · intro c _
    exact ⟨Real.neg_one_le_sin _, Real.sin_le_one _⟩
  · exact ⟨jsTruncQ ((st.phaseCoeff + ((⌊dur * rate⌋).toNat : ℚ) * (2 * freq / rate)) / 2),
      by rw [hphase']; rfl⟩
  · rw [hphase']; exact hnn
  · rw [hphase']; exact hlt
  · rw [hphase', heq]
    have hm := Real.sin_add_int_mul_two_pi
      (Real.pi * ((st.phaseCoeff + ((⌊dur * rate⌋).toNat : ℚ) * (2 * freq / rate)) : ℝ))
      (-(⌊(st.phaseCoeff + ((⌊dur * rate⌋).toNat : ℚ) * (2 * freq / rate)) / 2⌋))
    rw [← hm]
    congr 1
    push_cast
    ring

/-- C9 witness: the theorem at rate 48000, initial state, a 10 ms tone of
1200 Hz. -/
theorem c9_addTone_witness :
    0 < (48000 : ℕ) ∧ 0 ≤ (1200 : ℚ) ∧ 0 ≤ (SynthState.mk 0 []).phaseCoeff ∧
    ((addTone 48000 ⟨0, []⟩ 1200 (1/100)).samples.length
      = (SynthState.mk 0 []).samples.length + (⌊(1/100 : ℚ) * (48000 : ℕ)⌋).toNat ∧
    (∀ k, k < (⌊(1/100 : ℚ) * (48000 : ℕ)⌋).toNat →
      (addTone 48000 ⟨0, []⟩ 1200 (1/100)).samples.getD
        ((SynthState.mk 0 []).samples.length + k) 0
        = (SynthState.mk 0 []).phaseCoeff + k * (2 * 1200 / (48000 : ℕ))) ∧
    (∀ c ∈ (addTone 48000 ⟨0, []⟩ 1200 (1/100)).samples,
      -1 ≤ Real.sin (Real.pi * (c : ℝ)) ∧ Real.sin (Real.pi * (c : ℝ)) ≤ 1) ∧
    (∃ m : ℤ, (addTone 48000 ⟨0, []⟩ 1200 (1/100)).phaseCoeff
        = (SynthState.mk 0 []).phaseCoeff
          + ((⌊(1/100 : ℚ) * (48000 : ℕ)⌋).toNat : ℚ) * (2 * 1200 / (48000 : ℕ)) - 2 * m) ∧
    0 ≤ (addTone 48000 ⟨0, []⟩ 1200 (1/100)).phaseCoeff ∧
    (addTone 48000 ⟨0, []⟩ 1200 (1/100)).phaseCoeff < 2 ∧
    Real.sin (Real.pi * ((addTone 48000 ⟨0, []⟩ 1200 (1/100)).phaseCoeff : ℝ))
      = Real.sin (Real.pi *
          (((SynthState.mk 0 []).phaseCoeff
            + ((⌊(1/100 : ℚ) * (48000 : ℕ)⌋).toNat : ℚ) * (2 * 1200 / (48000 : ℕ))) : ℝ))) :=
  ⟨by norm_num, by norm_num, by norm_num,
    c9_addTone_appends_and_reduces_phase 48000 ⟨0, []⟩ 1200 (1/100)
      (by norm_num) (by norm_num) (by norm_num)⟩

/-! ### C5 — VIS bit and parity decoding -/

theorem foldl_orshift_testBit (f : ℕ → Bool) (n : ℕ) :
    (((List.range n).foldl (fun acc bit => if f bit then acc ||| (1 <<< bit) else acc) 0) < 2 ^ n) ∧
    (∀ j, ((List.range n).foldl (fun acc bit => if f bit then acc ||| (1 <<< bit) else acc) 0).testBit j
      = (decide (j < n) && f j)) := by
  induction n with
  | zero => simp
  | succ n ih =>
    obtain ⟨ihb, iht⟩ := ih
    rw [List.range_succ, List.foldl_append]
    simp only [List.foldl_cons, List.foldl_nil]
    have h1 : (1 <<< n : ℕ) = 2 ^ n := by simp [Nat.shiftLeft_eq]
    have hpow : (2 : ℕ) ^ n < 2 ^ (n + 1) :=
      Nat.pow_lt_pow_right (by norm_num) (by omega)
    constructor
    · by_cases h : f n
      · rw [if_pos h, h1]
        exact Nat.or_lt_two_pow (lt_trans ihb hpow) hpow
      · rw [if_neg h]
        exact lt_trans ihb hpow
    · intro j
      by_cases hj : j = n
      · subst hj
        by_cases h : f j
        · rw [if_pos h, Nat.testBit_or, h1, iht j]
          simp [Nat.testBit_two_pow_self, h]
        · rw [if_neg h, iht j]
          simp [h]
      · have hiff : j < n ↔ j < n + 1 := by omega
        by_cases h : f n
        · rw [if_pos h, Nat.testBit_or, h1, iht j,
            Nat.testBit_two_pow_of_ne (by omega)]
          simp [hiff]
        · rw [if_neg h, iht j]
          simp [hiff]

/-- C5: `decodeVIS` reads 7 successive 30 ms windows from the data-bit
position (window `i` at `startIdx + i·⌊0.03·rate⌋`), setting data bit `i`
(LSB first) exactly when the measured frequency is strictly below
`1200 + freqShift`; the resulting code is 7 bits; the parity flag holds
exactly when the parity-bit window (read the same way) equals the parity
of the number of 1 data bits; and `detectMode`'s parity gate discards the
candidate (continuing the scan) exactly when the flag is false. -/
theorem c5_decodeVIS_bits_and_parity (detect : Detector) (rate : ℕ) (startIdx : ℤ) (shift : JQ)
    (hdet : Detector.Wf detect) (hshift : shift.Wf) :
    (∀ i : ℕ, i < 7 →
      ((decodeVIS detect rate startIdx shift).1.testBit i ↔
        (detect (startIdx + (i : ℤ) * ((⟨3, 100⟩ : JQ) * JQ.ofInt rate).floor)
          ⟨3, 100⟩).toRat < 1200 + shift.toRat)) ∧
    (decodeVIS detect rate startIdx shift).1 < 128 ∧
    ((decodeVIS detect rate startIdx shift).2 = true ↔
      ((if (detect (startIdx + 7 * ((⟨3, 100⟩ : JQ) * JQ.ofInt rate).floor) ⟨3, 100⟩).toRat
            < 1200 + shift.toRat then 1 else 0)
        = ((List.range 7).countP (fun i =>
            decide ((detect (startIdx + (i : ℤ) * ((⟨3, 100⟩ : JQ) * JQ.ofInt rate).floor)
              ⟨3, 100⟩).toRat < 1200 + shift.toRat))) % 2)) ∧
    (visCandidate detect rate startIdx shift = none ↔
      (decodeVIS detect rate startIdx shift).2 = false) := by
  have hwf1200 : (JQ.ofInt 1200 + shift).Wf := JQ.wf_add (JQ.wf_ofInt 1200) hshift
  have hlt : ∀ p : ℤ, (detect p ⟨3, 100⟩ < JQ.ofInt 1200 + shift) ↔
      ((detect p ⟨3, 100⟩).toRat < 1200 + shift.toRat) := by
    intro p
    rw [JQ.lt_iff (hdet p ⟨3, 100⟩) hwf1200, JQ.toRat_add (JQ.wf_ofInt 1200) hshift,
      JQ.toRat_ofInt]
    norm_num
  obtain ⟨hb, ht⟩ := foldl_orshift_testBit
    (fun bit => decide (detect (startIdx + (bit : ℤ) * ((⟨3, 100⟩ : JQ) * JQ.ofInt rate).floor)
      ⟨3, 100⟩ < JQ.ofInt 1200 + shift)) 7
  have h1 : (decodeVIS detect rate startIdx shift).1
      = (List.range 7).foldl (fun (acc : ℕ) (bit : ℕ) =>
          if decide (detect (startIdx + (bit : ℤ) * ((⟨3, 100⟩ : JQ) * JQ.ofInt rate).floor)
            ⟨3, 100⟩ < JQ.ofInt 1200 + shift) then acc ||| (1 <<< bit) else acc) 0 := rfl
  have h2 : (decodeVIS detect rate startIdx shift).2
      = (((List.range 7).countP (fun bit =>
          decide (detect (startIdx + (bit : ℤ) * ((⟨3, 100⟩ : JQ) * JQ.ofInt rate).floor)
            ⟨3, 100⟩ < JQ.ofInt 1200 + shift))) % 2
        == (if detect (startIdx + 7 * ((⟨3, 100⟩ : JQ) * JQ.ofInt rate).floor) ⟨3, 100⟩
            < JQ.ofInt 1200 + shift then 1 else 0)) := rfl
  refine ⟨?_, ?_, ?_, ?_⟩
  · intro i hi
    rw [h1, ht i]
    have htrue : decide (i < 7) = true := by simp [hi]
    rw [htrue, Bool.true_and, decide_eq_true_eq]
    exact hlt _
  · rw [h1]
    exact hb
  · rw [h2, beq_iff_eq]
    rw [show ((List.range 7).countP (fun i =>
            decide ((detect (startIdx + (i : ℤ) * ((⟨3, 100⟩ : JQ) * JQ.ofInt rate).floor)
              ⟨3, 100⟩).toRat < 1200 + shift.toRat)))
        = ((List.range 7).countP (fun bit =>
          decide (detect (startIdx + (bit : ℤ) * ((⟨3, 100⟩ : JQ) * JQ.ofInt rate).floor)
            ⟨3, 100⟩ < JQ.ofInt 1200 + shift))) from
      List.countP_congr (fun a _ => by simp only [hlt])]
    rw [show (if (detect (startIdx + 7 * ((⟨3, 100⟩ : JQ) * JQ.ofInt rate).floor)
          ⟨3, 100⟩).toRat < 1200 + shift.toRat then 1 else 0)
        = (if detect (startIdx + 7 * ((⟨3, 100⟩ : JQ) * JQ.ofInt rate).floor) ⟨3, 100⟩
          < JQ.ofInt 1200 + shift then (1 : ℕ) else 0) from by simp only [hlt]]
    exact eq_comm
  · unfold visCandidate
    rcases hs : (decodeVIS detect rate startIdx shift).2 <;> simp [hs]

/-- C5 witness: the theorem applied to the ideal PD 120 VIS tones at
48 kHz with zero frequency shift. -/
theorem c5_decodeVIS_witness :
    Detector.Wf pd120VISDetect ∧ JQ.Wf ⟨0, 1⟩ ∧
    ((∀ i : ℕ, i < 7 →
      ((decodeVIS pd120VISDetect 48000 0 ⟨0, 1⟩).1.testBit i ↔
        (pd120VISDetect (0 + (i : ℤ) * ((⟨3, 100⟩ : JQ) * JQ.ofInt 48000).floor)
          ⟨3, 100⟩).toRat < 1200 + (⟨0, 1⟩ : JQ).toRat)) ∧
    (decodeVIS pd120VISDetect 48000 0 ⟨0, 1⟩).1 < 128 ∧
    ((decodeVIS pd120VISDetect 48000 0 ⟨0, 1⟩).2 = true ↔
      ((if (pd120VISDetect (0 + 7 * ((⟨3, 100⟩ : JQ) * JQ.ofInt 48000).floor)
            ⟨3, 100⟩).toRat < 1200 + (⟨0, 1⟩ : JQ).toRat then 1 else 0)
        = ((List.range 7).countP (fun i =>
            decide ((pd120VISDetect (0 + (i : ℤ) * ((⟨3, 100⟩ : JQ) * JQ.ofInt 48000).floor)
              ⟨3, 100⟩).toRat < 1200 + (⟨0, 1⟩ : JQ).toRat))) % 2)) ∧
    (visCandidate pd120VISDetect 48000 0 ⟨0, 1⟩ = none ↔
      (decodeVIS pd120VISDetect 48000 0 ⟨0, 1⟩).2 = false)) := by
  have hdet : Detector.Wf pd120VISDetect := by
    intro p t
    unfold pd120VISDetect
    split <;> norm_num [JQ.Wf]
  have hshift : JQ.Wf ⟨0, 1⟩ := by norm_num [JQ.Wf]
  exact ⟨hdet, hshift, c5_decodeVIS_bits_and_parity pd120VISDetect 48000 0 ⟨0, 1⟩ hdet hshift⟩

/-! ### C3 — first-sync acquisition -/

/-- Positions visited by a modelled `for` loop lie in `[start, stop)`. -/
theorem loopPositions_bounds (start stop step i : ℤ)
    (h : i ∈ loopPositions start stop step) : start ≤ i ∧ i < stop := by
  unfold loopPositions at h
  rw [List.mem_map] at h
  obtain ⟨k, hk, rfl⟩ := h
  rw [List.mem_range] at hk
  unfold loopCount at hk
  by_cases hstep : 0 < step
  · rw [if_pos hstep] at hk
    have hk' : (k : ℤ) < (stop - start + step - 1) / step := Int.lt_toNat.mp hk
    constructor
    · have : 0 ≤ (k : ℤ) * step := mul_nonneg (by positivity) hstep.le
      omega
    · have h2 : (k : ℤ) + 1 ≤ (stop - start + step - 1) / step := by omega
      rw [Int.le_ediv_iff_mul_le hstep] at h2
      nlinarith
  · rw [if_neg hstep] at hk
    omega

/-- A sync position returned by `findSyncPulse` lies inside the forward
search window `[startPos, endPos)`. -/
theorem findSyncPulse_bounds (detect : Detector) (m : SSTVMode) (shift : JQ)
    (rate : ℕ) (len : ℤ) (startPos endPos p : ℤ)
    (h : findSyncPulse detect m shift rate len startPos endPos = some p) :
    startPos ≤ p ∧ p < endPos := by
  unfold findSyncPulse at h
  have hmem := List.mem_of_find?_eq_some h
  have hb := loopPositions_bounds _ _ _ _ hmem
  exact ⟨hb.1, lt_of_lt_of_le hb.2 (min_le_left _ _)⟩

/-- C3: `findSyncPulse` only returns positions inside its forward search
window, so the first-sync acquisition never probes backward from
`visEndPos`; the acquisition tries `[visEnd, visEnd + 1 line]`, then
`[visEnd, visEnd + 3 lines]`, then from sample 0, in that order; and
`decodeImage` throws exactly the message
`Could not find sync pulse. Make sure this is a valid SSTV transmission.`
— producing no pixel buffer — precisely when all three searches fail. -/
theorem c3_sync_acquisition_order_and_failure (detect : Detector) (m : SSTVMode) (shift : JQ)
    (rate : ℕ) (len visEnd : ℤ) :
    (∀ startPos endPos p : ℤ,
      findSyncPulse detect m shift rate len startPos endPos = some p →
        startPos ≤ p ∧ p < endPos) ∧
    (acquireFirstSync detect m shift rate len visEnd
      = ((findSyncPulse detect m shift rate len visEnd
            (visEnd + (m.scanTime * JQ.ofInt rate).floor)).or
          ((findSyncPulse detect m shift rate len visEnd
            (visEnd + (m.scanTime * JQ.ofInt rate).floor * 3)).or
           (findSyncPulse detect m shift rate len 0 len)))) ∧
    (∀ (passes : List DecodePass) (cu cv : ℕ → ℕ),
      (decodeImagePixels detect m shift rate len visEnd passes cu cv
          = Except.error
            "Could not find sync pulse. Make sure this is a valid SSTV transmission.")
        ↔ (findSyncPulse detect m shift rate len visEnd
            (visEnd + (m.scanTime * JQ.ofInt rate).floor) = none ∧
          findSyncPulse detect m shift rate len visEnd
            (visEnd + (m.scanTime * JQ.ofInt rate).floor * 3) = none ∧
          findSyncPulse detect m shift rate len 0 len = none)) ∧
    (∀ (passes : List DecodePass) (cu cv : ℕ → ℕ) (buf : ℕ → ℕ),
      (findSyncPulse detect m shift rate len visEnd
            (visEnd + (m.scanTime * JQ.ofInt rate).floor) = none ∧
        findSyncPulse detect m shift rate len visEnd
            (visEnd + (m.scanTime * JQ.ofInt rate).floor * 3) = none ∧
        findSyncPulse detect m shift rate len 0 len = none) →
      decodeImagePixels detect m shift rate len visEnd passes cu cv
        ≠ Except.ok buf) := by
  have hbound : ∀ startPos endPos p : ℤ,
      findSyncPulse detect m shift rate len startPos endPos = some p →
        startPos ≤ p ∧ p < endPos :=
    fun startPos endPos p hfind =>
      findSyncPulse_bounds detect m shift rate len startPos endPos p hfind
  have hacq : acquireFirstSync detect m shift rate len visEnd
      = ((findSyncPulse detect m shift rate len visEnd
            (visEnd + (m.scanTime * JQ.ofInt rate).floor)).or
          ((findSyncPulse detect m shift rate len visEnd
            (visEnd + (m.scanTime * JQ.ofInt rate).floor * 3)).or
           (findSyncPulse detect m shift rate len 0 len))) := by
    unfold acquireFirstSync
    rcases h1 : findSyncPulse detect m shift rate len visEnd
        (visEnd + (m.scanTime * JQ.ofInt rate).floor) with _ | p1
    · rcases h2 : findSyncPulse detect m shift rate len visEnd
          (visEnd + (m.scanTime * JQ.ofInt rate).floor * 3) with _ | p2 <;>
        simp [h1, h2, Option.or]
    · simp [h1, Option.or]
  refine ⟨hbound, hacq, ?_, ?_⟩
  · intro passes cu cv
    unfold decodeImagePixels
    rcases h : acquireFirstSync detect m shift rate len visEnd with _ | p
    · rw [h] at hacq
      constructor
      · intro _
        rcases h1 : findSyncPulse detect m shift rate len visEnd
            (visEnd + (m.scanTime * JQ.ofInt rate).floor) with _ | p1
        · rcases h2 : findSyncPulse detect m shift rate len visEnd
              (visEnd + (m.scanTime * JQ.ofInt rate).floor * 3) with _ | p2
          · rcases h3 : findSyncPulse detect m shift rate len 0 len with _ | p3
            · exact ⟨rfl, rfl, rfl⟩
            · rw [h1, h2, h3] at hacq
              simp [Option.or] at hacq
          · rw [h1, h2] at hacq
            simp [Option.or] at hacq
        · rw [h1] at hacq
          simp [Option.or] at hacq
      · intro _
        simp
    · constructor
      · intro herr
        simp at herr
      · intro ⟨h1, h2, h3⟩
        rw [h1, h2, h3] at hacq
        simp [Option.or] at hacq
        rw [hacq] at h
        exact absurd h (by simp)
  · intro passes cu cv buf ⟨h1, h2, h3⟩
    unfold decodeImagePixels
    rw [hacq, h1, h2, h3]
    simp [Option.or]


set_option maxRecDepth 20000

/-! ### C8 — timing-based fallback detection -/

/-- C8: when no valid VIS is found, `detectModeByTiming` returns a mode
only with a found leader and at least two collected sync pulses, and then
returns the first registry mode whose expected period — `scanTime` for
RGB/YUV, `4·componentTime + syncPulse + syncPorch` for PD — is within
10 % relative tolerance of the inter-sync period, setting `visEndPos` to
the first located sync; the match stage succeeds exactly when some
registry mode is within tolerance.  The final conjunct evaluates the
whole fallback on a concrete signal (leader at 0–9600, syncs one Robot 36
line period apart), returning Robot 36 with `visEndPos = 33600`. -/
theorem c8_timing_fallback_period_match (detect : Detector) (rate : ℕ) (len : ℤ) :
    (∀ m : SSTVMode, ∀ v : ℤ, detectModeByTiming detect rate len = some (m, v) →
      ¬ (timingLeaderScan detect rate len).leaderEnd = -1 ∧
      2 ≤ (timingSyncs detect rate len (timingLeaderScan detect rate len).leaderEnd).length ∧
      timingMatch (timingPeriod rate
        (timingSyncs detect rate len (timingLeaderScan detect rate len).leaderEnd)) = some m ∧
      v = (timingSyncs detect rate len (timingLeaderScan detect rate len).leaderEnd).headD 0) ∧
    (∀ period : JQ, period.Wf →
      ((timingMatch period).isSome ↔
        ∃ m ∈ SSTV_MODES,
          |period.toRat - (timingExpectedPeriod m).toRat| / (timingExpectedPeriod m).toRat
            < 1/10)) ∧
    (∀ period : JQ, period.Wf → ∀ m : SSTVMode, timingMatch period = some m →
      m ∈ SSTV_MODES ∧
      |period.toRat - (timingExpectedPeriod m).toRat| / (timingExpectedPeriod m).toRat < 1/10) ∧
    ((timingLeaderScan detect rate len).leaderEnd = -1 →
      detectModeByTiming detect rate len = none) ∧
    (detectModeByTiming timingDetect 48000 50000 = some (ROBOT36, 33600)) := by
  have hwf : ∀ m ∈ SSTV_MODES,
      0 < (timingExpectedPeriod m).den ∧ 0 < (timingExpectedPeriod m).num := by decide
  have hpred : ∀ (period : JQ), period.Wf → ∀ m ∈ SSTV_MODES,
      ((decide ((period - timingExpectedPeriod m).abs / timingExpectedPeriod m
          < (⟨1, 10⟩ : JQ))) = true ↔
        |period.toRat - (timingExpectedPeriod m).toRat| / (timingExpectedPeriod m).toRat
          < 1/10) := by
    intro period hp m hm
    obtain ⟨hew', hen⟩ := hwf m hm
    have hew : (timingExpectedPeriod m).Wf := hew'
    rw [decide_eq_true_eq]
    have hnz : (timingExpectedPeriod m).num ≠ 0 := by omega
    have hwfq : ((period - timingExpectedPeriod m).abs / timingExpectedPeriod m).Wf :=
      JQ.wf_div (JQ.wf_abs (JQ.wf_sub hp hew)) hew hnz
    have hwf110 : ((⟨1, 10⟩ : JQ)).Wf := by norm_num [JQ.Wf]
    rw [JQ.lt_iff hwfq hwf110,
      JQ.toRat_div (JQ.wf_abs (JQ.wf_sub hp hew)) hew hnz,
      JQ.toRat_abs (JQ.wf_sub hp hew), JQ.toRat_sub hp hew]
    have h110 : ((⟨1, 10⟩ : JQ)).toRat = 1/10 := by norm_num [JQ.toRat]
    rw [h110]
  refine ⟨?_, ?_, ?_, ?_, by decide⟩
  · intro m v hres
    unfold detectModeByTiming at hres
    by_cases hl : (timingLeaderScan detect rate len).leaderEnd = -1
    · rw [if_pos hl] at hres
      exact absurd hres (by simp)
    · rw [if_neg hl] at hres
      by_cases hs : (timingSyncs detect rate len
          (timingLeaderScan detect rate len).leaderEnd).length < 2
      · rw [if_pos hs] at hres
        exact absurd hres (by simp)
      · rw [if_neg hs] at hres
        rcases hmatch : timingMatch (timingPeriod rate
            (timingSyncs detect rate len (timingLeaderScan detect rate len).leaderEnd)) with
          _ | m'
        · rw [hmatch] at hres
          exact absurd hres (by simp)
        · rw [hmatch] at hres
          simp only [Option.some.injEq, Prod.mk.injEq] at hres
          exact ⟨hl, by omega, by rw [hres.1], hres.2.symm⟩
  · intro period hp
    unfold timingMatch
    rw [List.find?_isSome]
    constructor
    · intro ⟨m, hm, hpm⟩
      exact ⟨m, hm, (hpred period hp m hm).mp hpm⟩
    · intro ⟨m, hm, hq⟩
      exact ⟨m, hm, (hpred period hp m hm).mpr hq⟩
  · intro period hp m hmatch
    unfold timingMatch at hmatch
    have hmem := List.mem_of_find?_eq_some hmatch
    have hpm := List.find?_some hmatch
    exact ⟨hmem, (hpred period hp m hmem).mp hpm⟩
  · intro hl
    unfold detectModeByTiming
    rw [if_pos hl]

/-- C7 (amended): `estimateFreqOffset` re-locates the sync for up to 20
successive lines inside a `±5%` window around a hard-coded Robot 36 line
period (`estLineTime`, whose value equals Robot 36's `scanTime`,
regardless of the mode argument), records `measured − 1200` per line,
returns `0` when fewer than 5 offsets were collected, and otherwise
returns the rounded median exactly when its absolute value exceeds
50 Hz and `0` otherwise. -/
theorem c7_estimate_freq_offset_characterization (detect : Detector) (m : SSTVMode)
    (shift : JQ) (rate : ℕ) (len firstSyncPos : ℤ) :
    (∀ (fuel : ℕ) (pos : ℤ) (off : JQ) (rest : List JQ),
      collectOffsets detect m shift rate len
          ((estLineTime m * JQ.ofInt rate).floor)
          ((JQ.ofInt ((estLineTime m * JQ.ofInt rate).floor) * (⟨5, 100⟩ : JQ)).floor)
          (fuel + 1) pos = off :: rest →
      ∃ s : ℤ, findSyncPulse detect m shift rate len
          (pos - (JQ.ofInt ((estLineTime m * JQ.ofInt rate).floor) * (⟨5, 100⟩ : JQ)).floor)
          (pos + (JQ.ofInt ((estLineTime m * JQ.ofInt rate).floor) * (⟨5, 100⟩ : JQ)).floor)
          = some s ∧
        pos - (JQ.ofInt ((estLineTime m * JQ.ofInt rate).floor) * (⟨5, 100⟩ : JQ)).floor ≤ s ∧
        s < pos + (JQ.ofInt ((estLineTime m * JQ.ofInt rate).floor) * (⟨5, 100⟩ : JQ)).floor ∧
        off = detect s m.syncPulse - JQ.ofInt 1200 ∧
        rest = collectOffsets detect m shift rate len
          ((estLineTime m * JQ.ofInt rate).floor)
          ((JQ.ofInt ((estLineTime m * JQ.ofInt rate).floor) * (⟨5, 100⟩ : JQ)).floor)
          fuel (s + (estLineTime m * JQ.ofInt rate).floor)) ∧
    ((collectOffsets detect m shift rate len
        ((estLineTime m * JQ.ofInt rate).floor)
        ((JQ.ofInt ((estLineTime m * JQ.ofInt rate).floor) * (⟨5, 100⟩ : JQ)).floor)
        20 firstSyncPos).length < 5 →
      estimateFreqOffset detect m shift rate len firstSyncPos = 0) ∧
    (5 ≤ (collectOffsets detect m shift rate len
        ((estLineTime m * JQ.ofInt rate).floor)
        ((JQ.ofInt ((estLineTime m * JQ.ofInt rate).floor) * (⟨5, 100⟩ : JQ)).floor)
        20 firstSyncPos).length →
      ((List.insertionSort (fun a b : JQ => a ≤ b)
          (collectOffsets detect m shift rate len
            ((estLineTime m * JQ.ofInt rate).floor)
            ((JQ.ofInt ((estLineTime m * JQ.ofInt rate).floor) * (⟨5, 100⟩ : JQ)).floor)
            20 firstSyncPos)).getD
          ((collectOffsets detect m shift rate len
            ((estLineTime m * JQ.ofInt rate).floor)
            ((JQ.ofInt ((estLineTime m * JQ.ofInt rate).floor) * (⟨5, 100⟩ : JQ)).floor)
            20 firstSyncPos).length / 2) 0)
        ∈ (collectOffsets detect m shift rate len
            ((estLineTime m * JQ.ofInt rate).floor)
            ((JQ.ofInt ((estLineTime m * JQ.ofInt rate).floor) * (⟨5, 100⟩ : JQ)).floor)
            20 firstSyncPos) ∧
      estimateFreqOffset detect m shift rate len firstSyncPos
        = (if JQ.ofInt 50 <
              ((List.insertionSort (fun a b : JQ => a ≤ b)
                (collectOffsets detect m shift rate len
                  ((estLineTime m * JQ.ofInt rate).floor)
                  ((JQ.ofInt ((estLineTime m * JQ.ofInt rate).floor) * (⟨5, 100⟩ : JQ)).floor)
                  20 firstSyncPos)).getD
                ((collectOffsets detect m shift rate len
                  ((estLineTime m * JQ.ofInt rate).floor)
                  ((JQ.ofInt ((estLineTime m * JQ.ofInt rate).floor) * (⟨5, 100⟩ : JQ)).floor)
                  20 firstSyncPos).length / 2) 0).abs
            then ((List.insertionSort (fun a b : JQ => a ≤ b)
                (collectOffsets detect m shift rate len
                  ((estLineTime m * JQ.ofInt rate).floor)
                  ((JQ.ofInt ((estLineTime m * JQ.ofInt rate).floor) * (⟨5, 100⟩ : JQ)).floor)
                  20 firstSyncPos)).getD
                ((collectOffsets detect m shift rate len
                  ((estLineTime m * JQ.ofInt rate).floor)
                  ((JQ.ofInt ((estLineTime m * JQ.ofInt rate).floor) * (⟨5, 100⟩ : JQ)).floor)
                  20 firstSyncPos).length / 2) 0).round
            else 0)) ∧
    (estLineTime ROBOT36).toRat = ROBOT36.scanTime.toRat := by
  refine ⟨?_, ?_, ?_, ?_⟩
  · intro fuel pos off rest h
    unfold collectOffsets at h
    rcases hf : findSyncPulse detect m shift rate len
        (pos - (JQ.ofInt ((estLineTime m * JQ.ofInt rate).floor) * (⟨5, 100⟩ : JQ)).floor)
        (pos + (JQ.ofInt ((estLineTime m * JQ.ofInt rate).floor) * (⟨5, 100⟩ : JQ)).floor) with
      _ | s
    · rw [hf] at h
      exact absurd h (by simp)
    · rw [hf] at h
      obtain ⟨hb1, hb2⟩ := findSyncPulse_bounds detect m shift rate len _ _ _ hf
      simp only [List.cons.injEq] at h
      exact ⟨s, rfl, hb1, hb2, h.1.symm, h.2.symm⟩
  · intro hlt
    unfold estimateFreqOffset
    rw [if_pos hlt]
  · intro hge
    constructor
    · have hlen : (List.insertionSort (fun a b : JQ => a ≤ b)
          (collectOffsets detect m shift rate len
            ((estLineTime m * JQ.ofInt rate).floor)
            ((JQ.ofInt ((estLineTime m * JQ.ofInt rate).floor) * (⟨5, 100⟩ : JQ)).floor)
            20 firstSyncPos)).length
          = (collectOffsets detect m shift rate len
            ((estLineTime m * JQ.ofInt rate).floor)
            ((JQ.ofInt ((estLineTime m * JQ.ofInt rate).floor) * (⟨5, 100⟩ : JQ)).floor)
            20 firstSyncPos).length :=
        (List.perm_insertionSort _ _).length_eq
      have hidx : (collectOffsets detect m shift rate len
            ((estLineTime m * JQ.ofInt rate).floor)
            ((JQ.ofInt ((estLineTime m * JQ.ofInt rate).floor) * (⟨5, 100⟩ : JQ)).floor)
            20 firstSyncPos).length / 2
          < (List.insertionSort (fun a b : JQ => a ≤ b)
            (collectOffsets detect m shift rate len
              ((estLineTime m * JQ.ofInt rate).floor)
              ((JQ.ofInt ((estLineTime m * JQ.ofInt rate).floor) * (⟨5, 100⟩ : JQ)).floor)
              20 firstSyncPos)).length := by
        rw [hlen]
        omega
      rw [List.getD_eq_getElem _ _ hidx]
      exact (List.perm_insertionSort _ _).mem_iff.mp (List.getElem_mem hidx)
    · unfold estimateFreqOffset
      rw [if_neg (by omega)]
  · have h1 : (estLineTime ROBOT36).num = 15000000000000000000 ∧
        (estLineTime ROBOT36).den = 100000000000000000000 := by decide
    show ((estLineTime ROBOT36).num : ℚ) / ((estLineTime ROBOT36).den : ℚ)
        = ((ROBOT36.scanTime).num : ℚ) / ((ROBOT36.scanTime).den : ℚ)
    rw [h1.1, h1.2]
    norm_num [ROBOT36]

/-- C7 counterexample: the re-location window is a hard-coded Robot 36
line period, not the mode's expected line period, and fewer than 5
collected offsets force a result of 0. On Robot 36 (where the windows
coincide) three lines of a `+100 Hz`-shifted signal yield offsets
`[100, 100, 100]` yet the code returns 0, while the claim's reading
returns the 100 Hz median; on PD 120 the code's window advances by 7683
samples instead of the true 24407-sample line period, so on a signal
with syncs one true line period apart the code finds a single line and
returns 0 while the claim's reading returns 100. -/
theorem c7_counterexample :
    estimateFreqOffset estOffsetDetectA ROBOT36 ⟨0, 1⟩ 48000 100000 1000 = 0 ∧
    collectOffsets estOffsetDetectA ROBOT36 ⟨0, 1⟩ 48000 100000
      ((estLineTime ROBOT36 * JQ.ofInt 48000).floor)
      ((JQ.ofInt ((estLineTime ROBOT36 * JQ.ofInt 48000).floor) * (⟨5, 100⟩ : JQ)).floor)
      20 1000 = [⟨100, 1⟩, ⟨100, 1⟩, ⟨100, 1⟩] ∧
    estimateFreqOffsetClaim estOffsetDetectA ROBOT36 ⟨0, 1⟩ 48000 100000 1000 = ⟨100, 1⟩ ∧
    (estLineTime PD120 * JQ.ofInt 48000).floor = 7683 ∧
    (timingExpectedPeriod PD120 * JQ.ofInt 48000).floor = 24407 ∧
    estimateFreqOffset estOffsetDetectB PD120 ⟨0, 1⟩ 48000 100000 1000 = 0 ∧
    estimateFreqOffsetClaim estOffsetDetectB PD120 ⟨0, 1⟩ 48000 100000 1000 = ⟨100, 1⟩ := by
  refine ⟨by decide, by decide, by decide, by decide, by decide, by decide, by decide⟩

/-! ### C4 — WAV write/read roundtrip -/

theorem wavHeader_length (rate n : ℕ) : (wavHeader rate n).length = 44 := by
  simp [wavHeader, u32le, u16le]

theorem sampleBytes_length (ss : List JQ) :
    (sampleBytes ss).length = 2 * ss.length := by
  induction ss with
  | nil => rfl
  | cons s rest ih => simp [sampleBytes, int16le, ih]; omega

theorem createWAV_length (rate : ℕ) (samples : List JQ) :
    (createWAV rate samples).length = 44 + 2 * samples.length := by
  simp [createWAV, wavHeader_length, sampleBytes_length]

/-- The header bytes the chunk walk of `findWavDataOffset` inspects. -/
theorem byteAt_header12 (rate : ℕ) (samples : List JQ) :
    byteAt (createWAV rate samples) 12 = 102 ∧
    byteAt (createWAV rate samples) 16 = 16 ∧
    byteAt (createWAV rate samples) 17 = 0 ∧
    byteAt (createWAV rate samples) 18 = 0 ∧
    byteAt (createWAV rate samples) 19 = 0 ∧
    byteAt (createWAV rate samples) 36 = 100 ∧
    byteAt (createWAV rate samples) 37 = 97 ∧
    byteAt (createWAV rate samples) 38 = 116 ∧
    byteAt (createWAV rate samples) 39 = 97 := by
  refine ⟨?_, ?_, ?_, ?_, ?_, ?_, ?_, ?_, ?_⟩ <;>
    simp [createWAV, wavHeader, u32le, u16le, byteAt]

/-- The reader's chunk walk on a written file skips the 24-byte `fmt `
chunk and lands on the `data` chunk: the payload starts at byte 44. -/
theorem findWavDataOffset_createWAV (rate : ℕ) (samples : List JQ) :
    findWavDataOffset (createWAV rate samples) = 44 := by
  have hlen : (createWAV rate samples).length = 44 + 2 * samples.length :=
    createWAV_length rate samples
  have hb := byteAt_header12 rate samples
  have hfuel : (createWAV rate samples).length = (42 + 2 * samples.length) + 1 + 1 := by
    omega
  unfold findWavDataOffset
  rw [hfuel]
  unfold findWavDataOffsetAux
  rw [if_pos (by omega)]
  rw [if_neg (by simp [hb.1])]
  have hu : getU32le (createWAV rate samples) (12 + 4) = 16 := by
    show getU32le (createWAV rate samples) 16 = 16
    unfold getU32le
    rw [hb.2.1, hb.2.2.1, hb.2.2.2.1, hb.2.2.2.2.1]
  rw [hu]
  show findWavDataOffsetAux (createWAV rate samples) ((42 + 2 * samples.length) + 1) 36 = 44
  unfold findWavDataOffsetAux
  rw [if_pos (by omega)]
  rw [if_pos ⟨hb.2.2.2.2.2.1, hb.2.2.2.2.2.2.1, hb.2.2.2.2.2.2.2.1, hb.2.2.2.2.2.2.2.2⟩]

theorem JQ.wf_maxq {a b : JQ} (ha : a.Wf) (hb : b.Wf) : (JQ.maxq a b).Wf := by
  unfold JQ.maxq
  split <;> assumption

theorem JQ.wf_minq {a b : JQ} (ha : a.Wf) (hb : b.Wf) : (JQ.minq a b).Wf := by
  unfold JQ.minq
  split <;> assumption

theorem JQ.toRat_maxq {a b : JQ} (ha : a.Wf) (hb : b.Wf) :
    (JQ.maxq a b).toRat = max a.toRat b.toRat := by
  unfold JQ.maxq
  by_cases h : a ≤ b
  · rw [if_pos h, max_eq_right ((JQ.le_iff ha hb).mp h)]
  · rw [if_neg h,
      max_eq_left (le_of_not_le (fun hc => h ((JQ.le_iff ha hb).mpr hc)))]

theorem JQ.toRat_minq {a b : JQ} (ha : a.Wf) (hb : b.Wf) :
    (JQ.minq a b).toRat = min a.toRat b.toRat := by
  unfold JQ.minq
  by_cases h : a ≤ b
  · rw [if_pos h, min_eq_left ((JQ.le_iff ha hb).mp h)]
  · rw [if_neg h,
      min_eq_right (le_of_not_le (fun hc => h ((JQ.le_iff ha hb).mpr hc)))]

theorem clampUnit_wf {s : JQ} (hs : s.Wf) : (clampUnit s).Wf :=
  JQ.wf_maxq (JQ.wf_ofInt _) (JQ.wf_minq (JQ.wf_ofInt _) hs)

theorem clampUnit_toRat {s : JQ} (hs : s.Wf) :
    (clampUnit s).toRat = clampUnitQ s.toRat := by
  unfold clampUnit clampUnitQ
  rw [JQ.toRat_maxq (JQ.wf_ofInt _) (JQ.wf_minq (JQ.wf_ofInt _) hs),
    JQ.toRat_minq (JQ.wf_ofInt _) hs, JQ.toRat_ofInt, JQ.toRat_ofInt]
  norm_num

/-- Truncation toward zero moves a value by strictly less than 1. -/
theorem JQ.abs_trunc_sub_lt_one {a : JQ} (ha : a.Wf) :
    |((a.trunc : ℤ) : ℚ) - a.toRat| < 1 := by
  unfold JQ.trunc
  by_cases h : (0 : JQ) ≤ a
  · rw [if_pos h, JQ.floor_eq ha, abs_sub_lt_iff]
    clear h
    constructor
    · linarith [Int.floor_le a.toRat]
    · linarith [Int.lt_floor_add_one a.toRat]
  · rw [if_neg h, JQ.floor_eq (JQ.wf_neg ha), JQ.toRat_neg, abs_sub_lt_iff]
    clear h
    push_cast
    constructor
    · linarith [Int.lt_floor_add_one (-a.toRat)]
    · linarith [Int.floor_le (-a.toRat)]

/-- The writer's quantized sample is a valid int16 and, divided by
32768, lies within 2/32768 of the clamped input. -/
theorem quantizeSample_close {s : JQ} (hs : s.Wf) :
    -32767 ≤ quantizeSample s ∧ quantizeSample s ≤ 32767 ∧
    |((quantizeSample s : ℤ) : ℚ) / 32768 - clampUnitQ s.toRat| < 2 / 32768 := by
  have hcw : (clampUnit s).Wf := clampUnit_wf hs
  have hpw : (clampUnit s * JQ.ofInt 0x7fff).Wf := JQ.wf_mul hcw (JQ.wf_ofInt _)
  have htr : |((quantizeSample s : ℤ) : ℚ) - (clampUnit s).toRat * 32767| < 1 := by
    have := JQ.abs_trunc_sub_lt_one hpw
    rw [JQ.toRat_mul hcw (JQ.wf_ofInt _), JQ.toRat_ofInt] at this
    exact_mod_cast this
  have hcb : |(clampUnit s).toRat| ≤ 1 := by
    rw [clampUnit_toRat hs, clampUnitQ, abs_le]
    constructor
    · exact le_max_left _ _
    · exact max_le (by norm_num) (min_le_left _ _)
  rw [abs_lt] at htr
  rw [abs_le] at hcb
  have hq1 : -32767 ≤ quantizeSample s := by
    have : (-32768 : ℚ) < ((quantizeSample s : ℤ) : ℚ) := by nlinarith
    have : (-32768 : ℤ) < quantizeSample s := by exact_mod_cast this
    omega
  have hq2 : quantizeSample s ≤ 32767 := by
    have : ((quantizeSample s : ℤ) : ℚ) < 32768 := by nlinarith
    have : quantizeSample s < (32768 : ℤ) := by exact_mod_cast this
    omega
  refine ⟨hq1, hq2, ?_⟩
  rw [clampUnit_toRat hs] at htr
  rw [clampUnit_toRat hs] at hcb
  rw [abs_sub_lt_iff]
  constructor <;> linarith

/-- The bytes of the `k`-th written sample inside the payload. -/
theorem sampleBytes_getD (ss : List JQ) (k : ℕ) (hk : k < ss.length) :
    (sampleBytes ss).getD (2 * k) 0
        = (quantizeSample (ss.getD k 0) % 65536).toNat % 256 ∧
    (sampleBytes ss).getD (2 * k + 1) 0
        = (quantizeSample (ss.getD k 0) % 65536).toNat / 256 := by
  induction ss generalizing k with
  | nil => simp at hk
  | cons s rest ih =>
    cases k with
    | zero => simp [sampleBytes, int16le]
    | succ k' =>
      have hk' : k' < rest.length := by simpa using hk
      have h2 : 2 * (k' + 1) = (2 * k') + 1 + 1 := by omega
      simp only [sampleBytes, int16le, h2, List.cons_append, List.getD_cons_succ,
        List.nil_append, List.getD_cons_zero]
      exact ⟨(ih k' hk').1, by simpa using (ih k' hk').2⟩

/-- `getInt16` inverts `setInt16` on in-range values. -/
theorem int16_roundtrip (q : ℤ) (h1 : -32768 ≤ q) (h2 : q < 32768) :
    (if ((q % 65536).toNat % 256 + 256 * ((q % 65536).toNat / 256)) < 32768
      then ((((q % 65536).toNat % 256 + 256 * ((q % 65536).toNat / 256) : ℕ)) : ℤ)
      else ((((q % 65536).toNat % 256 + 256 * ((q % 65536).toNat / 256) : ℕ)) : ℤ) - 65536)
      = q := by
  have hrec : (q % 65536).toNat % 256 + 256 * ((q % 65536).toNat / 256)
      = (q % 65536).toNat := by omega
  rw [hrec]
  split <;> omega

/-- C4 (amended): decoding a written WAV file yields one sample per
input sample, each well-formed and within strictly less than `2/32768`
of the clamped input; the writer truncates `clamp(s,−1,1)·0x7FFF`
toward zero and the reader divides the int16 by 0x8000, so the
claimed `1/32768` bound can be exceeded. -/
theorem c4_wav_roundtrip_within_two_lsb (rate : ℕ) (samples : List JQ)
    (hwf : ∀ s ∈ samples, s.Wf) :
    (decodeAudioData (createWAV rate samples)).length = samples.length ∧
    ∀ k, k < samples.length →
      ((decodeAudioData (createWAV rate samples)).getD k 0).Wf ∧
      |((decodeAudioData (createWAV rate samples)).getD k 0).toRat
          - clampUnitQ ((samples.getD k 0)).toRat| < 2 / 32768 := by
  have hoff := findWavDataOffset_createWAV rate samples
  have hlen := createWAV_length rate samples
  have hdecode : decodeAudioData (createWAV rate samples)
      = (List.range samples.length).map
          (fun (i : ℕ) =>
            (⟨getI16le (createWAV rate samples) (44 + i * 2), 32768⟩ : JQ)) := by
    unfold decodeAudioData
    rw [hoff, hlen]
    have h2 : (44 + 2 * samples.length - 44) / 2 = samples.length := by omega
    simp only [h2]
  constructor
  · rw [hdecode]
    simp
  · intro k hk
    have hklt : k < ((List.range samples.length).map
        (fun (i : ℕ) =>
          (⟨getI16le (createWAV rate samples) (44 + i * 2), 32768⟩ : JQ))).length := by
      simpa using hk
    have hval : (decodeAudioData (createWAV rate samples)).getD k 0
        = ⟨getI16le (createWAV rate samples) (44 + k * 2), 32768⟩ := by
      rw [hdecode, List.getD_eq_getElem _ _ hklt]
      simp
    have hswf : (samples.getD k 0).Wf := by
      rw [List.getD_eq_getElem _ _ hk]
      exact hwf _ (List.getElem_mem hk)
    obtain ⟨hq1, hq2, hqb⟩ := quantizeSample_close hswf
    have hb0 : byteAt (createWAV rate samples) (44 + k * 2)
        = (quantizeSample (samples.getD k 0) % 65536).toNat % 256 := by
      unfold createWAV byteAt
      rw [List.getD_eq_getElem?_getD,
        List.getElem?_append_right (by rw [wavHeader_length]; omega),
        wavHeader_length]
      have h2 : 44 + k * 2 - 44 = 2 * k := by omega
      rw [h2, ← List.getD_eq_getElem?_getD]
      exact (sampleBytes_getD samples k hk).1
    have hb1 : byteAt (createWAV rate samples) (44 + k * 2 + 1)
        = (quantizeSample (samples.getD k 0) % 65536).toNat / 256 := by
      unfold createWAV byteAt
      rw [List.getD_eq_getElem?_getD,
        List.getElem?_append_right (by rw [wavHeader_length]; omega),
        wavHeader_length]
      have h2 : 44 + k * 2 + 1 - 44 = 2 * k + 1 := by omega
      rw [h2, ← List.getD_eq_getElem?_getD]
      exact (sampleBytes_getD samples k hk).2
    have hi16 : getI16le (createWAV rate samples) (44 + k * 2)
        = quantizeSample (samples.getD k 0) := by
      unfold getI16le
      rw [hb0, hb1]
      exact int16_roundtrip _ (by omega) (by omega)
    refine ⟨?_, ?_⟩
    · rw [hval]
      show (0 : ℤ) < 32768
      norm_num
    · rw [hval, hi16]
      have htoRat : (⟨quantizeSample (samples.getD k 0), 32768⟩ : JQ).toRat
          = ((quantizeSample (samples.getD k 0) : ℤ) : ℚ) / 32768 := by
        unfold JQ.toRat
        norm_num
      rw [htoRat]
      exact hqb

/-- C4 witness: the roundtrip theorem applied to a one-sample file. -/
theorem c4_wav_roundtrip_witness :
    (∀ s ∈ [(⟨1, 2⟩ : JQ)], s.Wf) ∧
    ((decodeAudioData (createWAV 8000 [(⟨1, 2⟩ : JQ)])).length
        = [(⟨1, 2⟩ : JQ)].length ∧
      ∀ k, k < [(⟨1, 2⟩ : JQ)].length →
        ((decodeAudioData (createWAV 8000 [(⟨1, 2⟩ : JQ)])).getD k 0).Wf ∧
        |((decodeAudioData (createWAV 8000 [(⟨1, 2⟩ : JQ)])).getD k 0).toRat
            - clampUnitQ (([(⟨1, 2⟩ : JQ)].getD k 0)).toRat| < 2 / 32768) :=
  ⟨fun s hs => by
      rw [List.mem_singleton.mp hs]
      exact (by decide : (0 : ℤ) < 2),
    c4_wav_roundtrip_within_two_lsb 8000 [⟨1, 2⟩] (fun s hs => by
      rw [List.mem_singleton.mp hs]
      exact (by decide : (0 : ℤ) < 2))⟩

/-- C4 counterexample: the sample `65533/65534` is written as
`trunc(32766.5) = 32766` and read back as `32766/32768`, an error of
`98300/(32768·65534) ≈ 1.5/32768`, exceeding the claimed `1/32768`. -/
theorem c4_counterexample :
    decodeAudioData (createWAV 48000 [(⟨65533, 65534⟩ : JQ)])
      = [(⟨32766, 32768⟩ : JQ)] ∧
    ¬ (|(⟨32766, 32768⟩ : JQ).toRat
        - clampUnitQ ((⟨65533, 65534⟩ : JQ)).toRat| ≤ 1 / 32768) := by
  constructor
  · decide
  · have hc : clampUnitQ ((⟨65533, 65534⟩ : JQ)).toRat = (65533 : ℚ) / 65534 := by
      unfold clampUnitQ JQ.toRat
      rw [min_eq_right (by norm_num), max_eq_right (by norm_num)]
      norm_num
    rw [hc]
    have hneg : (⟨32766, 32768⟩ : JQ).toRat - (65533 : ℚ) / 65534 < 0 := by
      unfold JQ.toRat
      norm_num
    rw [abs_of_neg hneg]
    unfold JQ.toRat
    norm_num

/-! ### C6 — YUV→RGB reconstruction -/

theorem writePix_ne (b : ℕ → ℕ) (i v j : ℕ) (h : j ≠ i) : writePix b i v j = b j := by
  unfold writePix
  rw [if_neg h]

theorem writePix_self (b : ℕ → ℕ) (i v : ℕ) : writePix b i v i = v := by
  unfold writePix
  rw [if_pos rfl]

theorem pix_index_inj {w ly x ly' x' : ℕ} (hx : x < w) (hx' : x' < w)
    (h : ly * w + x = ly' * w + x') : ly = ly' ∧ x = x' := by
  have hll : ly = ly' := by
    by_contra hne
    rcases Nat.lt_or_ge ly ly' with hlt | hge
    · have h1 : (ly + 1) * w ≤ ly' * w := mul_le_mul_right' (by omega) w
      have h2 : (ly + 1) * w = ly * w + w := by ring
      omega
    · have hlt' : ly' < ly := by omega
      have h1 : (ly' + 1) * w ≤ ly * w := mul_le_mul_right' (by omega) w
      have h2 : (ly' + 1) * w = ly' * w + w := by ring
      omega
  subst hll
  omega

theorem lyRange_mem_bounds {y o ly : ℕ} (h : ly ∈ lyRange y o) :
    y ≤ ly ∧ ly ≤ o := by
  unfold lyRange at h
  obtain ⟨t, ht, rfl⟩ := List.mem_map.mp h
  rw [List.mem_range] at ht
  omega

theorem lyRange_cases (y o : ℕ) (h : o ≤ y + 1) :
    (lyRange y o = [] ∧ o < y) ∨ (lyRange y o = [y] ∧ o = y) ∨
    (lyRange y o = [y, y + 1] ∧ o = y + 1) := by
  unfold lyRange
  rcases Nat.lt_or_ge o y with h1 | h1
  · left
    refine ⟨?_, h1⟩
    have : o + 1 - y = 0 := by omega
    rw [this]
    rfl
  · rcases Nat.eq_or_lt_of_le h1 with h2 | h2
    · right; left
      refine ⟨?_, h2.symm⟩
      have : o + 1 - y = 1 := by omega
      rw [this]
      rfl
    · right; right
      have ho : o = y + 1 := by omega
      refine ⟨?_, ho⟩
      have : o + 1 - y = 2 := by omega
      rw [this]
      simp [List.range_succ]

theorem convertYUVtoRGBStep_ne (m : SSTVMode) (cu cv : ℕ → ℕ) (y x : ℕ)
    (b : ℕ → ℕ) (j : ℕ)
    (hj : ∀ ly ∈ lyRange y (min (y + 1) (m.lines - 1)), ∀ c, c < 3 →
      j ≠ (ly * m.width + x) * 4 + c) :
    convertYUVtoRGBStep m cu cv y x b j = b j := by
  simp only [convertYUVtoRGBStep]
  rcases lyRange_cases y (min (y + 1) (m.lines - 1)) (min_le_left _ _) with
    ⟨he, hlt⟩ | ⟨he, heq⟩ | ⟨he, heq⟩
  · rw [he]
    rfl
  · have hmem : y ∈ lyRange y (min (y + 1) (m.lines - 1)) := by
      rw [he]; exact List.mem_singleton_self y
    rw [he]
    simp only [List.foldl_cons, List.foldl_nil]
    rw [writePix_ne _ _ _ _ (hj y hmem 2 (by omega)),
      writePix_ne _ _ _ _ (hj y hmem 1 (by omega)),
      writePix_ne _ _ _ _ (by
        have := hj y hmem 0 (by omega)
        omega)]
  · have hmem0 : y ∈ lyRange y (min (y + 1) (m.lines - 1)) := by
      rw [he]; simp
    have hmem1 : y + 1 ∈ lyRange y (min (y + 1) (m.lines - 1)) := by
      rw [he]; simp
    rw [he]
    simp only [List.foldl_cons, List.foldl_nil]
    rw [writePix_ne _ _ _ _ (hj (y + 1) hmem1 2 (by omega)),
      writePix_ne _ _ _ _ (hj (y + 1) hmem1 1 (by omega)),
      writePix_ne _ _ _ _ (by
        have := hj (y + 1) hmem1 0 (by omega)
        omega),
      writePix_ne _ _ _ _ (hj y hmem0 2 (by omega)),
      writePix_ne _ _ _ _ (hj y hmem0 1 (by omega)),
      writePix_ne _ _ _ _ (by
        have := hj y hmem0 0 (by omega)
        omega)]

theorem convertYUVtoRGBStep_own (m : SSTVMode) (cu cv : ℕ → ℕ) (y x : ℕ)
    (b : ℕ → ℕ) (hw : 0 < m.width) (ly : ℕ)
    (hly : ly ∈ lyRange y (min (y + 1) (m.lines - 1))) :
    convertYUVtoRGBStep m cu cv y x b ((ly * m.width + x) * 4)
        = yuvR (b ((ly * m.width + x) * 4)) (or128 (cv (y * m.width + x))) ∧
    convertYUVtoRGBStep m cu cv y x b ((ly * m.width + x) * 4 + 1)
        = yuvG (b ((ly * m.width + x) * 4))
            (or128 (cu ((min (y + 1) (m.lines - 1)) * m.width + x)))
            (or128 (cv (y * m.width + x))) ∧
    convertYUVtoRGBStep m cu cv y x b ((ly * m.width + x) * 4 + 2)
        = yuvB (b ((ly * m.width + x) * 4))
            (or128 (cu ((min (y + 1) (m.lines - 1)) * m.width + x))) := by
  simp only [convertYUVtoRGBStep]
  rcases lyRange_cases y (min (y + 1) (m.lines - 1)) (min_le_left _ _) with
    ⟨he, hlt⟩ | ⟨he, heq⟩ | ⟨he, heq⟩
  · rw [he] at hly
    exact absurd hly (List.not_mem_nil ly)
  · rw [he] at hly
    have hyy : ly = y := List.mem_singleton.mp hly
    subst hyy
    rw [he, heq]
    simp only [List.foldl_cons, List.foldl_nil]
    refine ⟨?_, ?_, ?_⟩
    · rw [writePix_ne _ _ _ _ (by omega), writePix_ne _ _ _ _ (by omega),
        writePix_self]
    · rw [writePix_ne _ _ _ _ (by omega), writePix_self]
    · rw [writePix_self]
  · rw [he] at hly
    rw [he, heq]
    simp only [List.foldl_cons, List.foldl_nil]
    have hrow : (y + 1) * m.width = y * m.width + m.width := by ring
    rcases List.mem_pair.mp hly with hyy | hyy <;> subst hyy
    · refine ⟨?_, ?_, ?_⟩
      · rw [writePix_ne _ _ _ _ (by omega), writePix_ne _ _ _ _ (by omega),
          writePix_ne _ _ _ _ (by omega),
          writePix_ne _ _ _ _ (by omega), writePix_ne _ _ _ _ (by omega),
          writePix_self]
      · rw [writePix_ne _ _ _ _ (by omega), writePix_ne _ _ _ _ (by omega),
          writePix_ne _ _ _ _ (by omega),
          writePix_ne _ _ _ _ (by omega), writePix_self]
      · rw [writePix_ne _ _ _ _ (by omega), writePix_ne _ _ _ _ (by omega),
          writePix_ne _ _ _ _ (by omega), writePix_self]
    · have hb0 : ∀ v0 v1 v2,
          writePix (writePix (writePix b ((y * m.width + x) * 4) v0)
            ((y * m.width + x) * 4 + 1) v1) ((y * m.width + x) * 4 + 2) v2
            (((y + 1) * m.width + x) * 4)
          = b (((y + 1) * m.width + x) * 4) := by
        intro v0 v1 v2
        rw [writePix_ne _ _ _ _ (by omega), writePix_ne _ _ _ _ (by omega),
          writePix_ne _ _ _ _ (by omega)]
      refine ⟨?_, ?_, ?_⟩
      · rw [writePix_ne _ _ _ _ (by omega), writePix_ne _ _ _ _ (by omega),
          writePix_self, hb0]
      · rw [writePix_ne _ _ _ _ (by omega), writePix_self, hb0]
      · rw [writePix_self, hb0]

theorem convertYUVtoRGB_row_ne (m : SSTVMode) (cu cv : ℕ → ℕ) (y : ℕ)
    (xs : List ℕ) (b : ℕ → ℕ) (j : ℕ)
    (hj : ∀ x' ∈ xs, ∀ ly ∈ lyRange y (min (y + 1) (m.lines - 1)), ∀ c, c < 3 →
      j ≠ (ly * m.width + x') * 4 + c) :
    (xs.foldl (fun b2 x' => convertYUVtoRGBStep m cu cv y x' b2) b) j = b j := by
  induction xs generalizing b with
  | nil => rfl
  | cons hd tl ih =>
    rw [List.foldl_cons,
      ih _ (fun x' hx' => hj x' (List.mem_cons_of_mem _ hx')),
      convertYUVtoRGBStep_ne _ _ _ _ _ _ _ (hj hd (List.mem_cons_self _ _))]

theorem convertYUVtoRGB_rows_ne (m : SSTVMode) (cu cv : ℕ → ℕ)
    (ys : List ℕ) (b : ℕ → ℕ) (j : ℕ)
    (hj : ∀ y' ∈ ys, ∀ x' ∈ List.range m.width,
      ∀ ly ∈ lyRange y' (min (y' + 1) (m.lines - 1)), ∀ c, c < 3 →
      j ≠ (ly * m.width + x') * 4 + c) :
    (ys.foldl (fun b2 y' =>
      (List.range m.width).foldl
        (fun b3 x' => convertYUVtoRGBStep m cu cv y' x' b3) b2) b) j = b j := by
  induction ys generalizing b with
  | nil => rfl
  | cons hd tl ih =>
    rw [List.foldl_cons,
      ih _ (fun y' hy' => hj y' (List.mem_cons_of_mem _ hy')),
      convertYUVtoRGB_row_ne _ _ _ _ _ _ _ (hj hd (List.mem_cons_self _ _))]

theorem range_split_at (w x : ℕ) (hx : x < w) :
    List.range w
      = (List.range x ++ [x]) ++ (List.range (w - x - 1)).map (fun (t : ℕ) => x + 1 + t) := by
  have h1 : w = (x + 1) + (w - x - 1) := by omega
  rw [h1, List.range_add, List.range_succ]
  have h2 : x + 1 + (w - x - 1) - x - 1 = w - x - 1 := by omega
  rw [h2]

theorem convertYUVtoRGB_row_own (m : SSTVMode) (cu cv : ℕ → ℕ) (y : ℕ)
    (b : ℕ → ℕ) (x : ℕ) (hx : x < m.width) (ly : ℕ)
    (hly : ly ∈ lyRange y (min (y + 1) (m.lines - 1))) :
    ((List.range m.width).foldl (fun b2 x' => convertYUVtoRGBStep m cu cv y x' b2) b)
        ((ly * m.width + x) * 4)
      = yuvR (b ((ly * m.width + x) * 4)) (or128 (cv (y * m.width + x))) ∧
    ((List.range m.width).foldl (fun b2 x' => convertYUVtoRGBStep m cu cv y x' b2) b)
        ((ly * m.width + x) * 4 + 1)
      = yuvG (b ((ly * m.width + x) * 4))
          (or128 (cu ((min (y + 1) (m.lines - 1)) * m.width + x)))
          (or128 (cv (y * m.width + x))) ∧
    ((List.range m.width).foldl (fun b2 x' => convertYUVtoRGBStep m cu cv y x' b2) b)
        ((ly * m.width + x) * 4 + 2)
      = yuvB (b ((ly * m.width + x) * 4))
          (or128 (cu ((min (y + 1) (m.lines - 1)) * m.width + x))) := by
  have hdisj : ∀ (c₀ : ℕ), c₀ < 3 → ∀ (x' : ℕ), x' < m.width → x' ≠ x →
      ∀ (ly' : ℕ), ∀ (c : ℕ), c < 3 →
      (ly * m.width + x) * 4 + c₀ ≠ (ly' * m.width + x') * 4 + c := by
    intro c₀ hc₀ x' hx' hne ly' c hc heq
    have h4 : ly * m.width + x = ly' * m.width + x' := by omega
    exact hne ((pix_index_inj hx hx' h4).2.symm)
  have hw := hx
  rw [range_split_at m.width x hx, List.foldl_append, List.foldl_append]
  have htail : ∀ (b' : ℕ → ℕ) (c₀ : ℕ), c₀ < 3 →
      (((List.range (m.width - x - 1)).map (fun (t : ℕ) => x + 1 + t)).foldl
        (fun b2 x' => convertYUVtoRGBStep m cu cv y x' b2) b')
          ((ly * m.width + x) * 4 + c₀)
        = b' ((ly * m.width + x) * 4 + c₀) := by
    intro b' c₀ hc₀
    refine convertYUVtoRGB_row_ne _ _ _ _ _ _ _ ?_
    intro x' hx' ly' hly' c hc
    obtain ⟨t, ht, rfl⟩ := List.mem_map.mp hx'
    rw [List.mem_range] at ht
    exact hdisj c₀ hc₀ _ (by omega) (by omega) ly' c hc
  have hhead : ∀ (c₀ : ℕ), c₀ < 3 →
      ((List.range x).foldl
        (fun b2 x' => convertYUVtoRGBStep m cu cv y x' b2) b)
          ((ly * m.width + x) * 4 + c₀)
        = b ((ly * m.width + x) * 4 + c₀) := by
    intro c₀ hc₀
    refine convertYUVtoRGB_row_ne _ _ _ _ _ _ _ ?_
    intro x' hx' ly' hly' c hc
    rw [List.mem_range] at hx'
    exact hdisj c₀ hc₀ _ (by omega) (by omega) ly' c hc
  simp only [List.foldl_cons, List.foldl_nil]
  obtain ⟨ho0, ho1, ho2⟩ := convertYUVtoRGBStep_own m cu cv y x
    ((List.range x).foldl (fun b2 x' => convertYUVtoRGBStep m cu cv y x' b2) b)
    (by omega) ly hly
  have hY : ((List.range x).foldl (fun b2 x' => convertYUVtoRGBStep m cu cv y x' b2) b)
      ((ly * m.width + x) * 4) = b ((ly * m.width + x) * 4) := by
    have := hhead 0 (by omega)
    simpa using this
  refine ⟨?_, ?_, ?_⟩
  · have := htail
      (convertYUVtoRGBStep m cu cv y x
        ((List.range x).foldl (fun b2 x' => convertYUVtoRGBStep m cu cv y x' b2) b))
      0 (by omega)
    simp only [Nat.add_zero] at this
    rw [this, ho0, hY]
  · rw [htail _ 1 (by omega), ho1, hY]
  · rw [htail _ 2 (by omega), ho2, hY]

/-- C6 (amended): for every line pair and column of `convertYUVtoRGB`,
V is the even line's V-plane byte and U the odd line's U-plane byte,
each passed through JavaScript's `|| 128` (a stored chroma byte of 0 is
replaced by 128); both rows of the pair are rewritten from their own
provisional luma `Y` and the shared `(U, V)` as
`R = clamp(round(Y + 1.402(V−128)))`,
`G = clamp(round(Y − 0.344136(U−128) − 0.714136(V−128)))`,
`B = clamp(round(Y + 1.772(U−128)))`, and the alpha cell is untouched. -/
theorem c6_yuv_rgb_shared_chroma (m : SSTVMode) (cu cv buf : ℕ → ℕ) (y x ly : ℕ)
    (hy : y ∈ evenRows m.lines) (hx : x < m.width)
    (hly : ly ∈ lyRange y (min (y + 1) (m.lines - 1))) :
    convertYUVtoRGB m cu cv buf ((ly * m.width + x) * 4)
        = yuvR (buf ((ly * m.width + x) * 4)) (or128 (cv (y * m.width + x))) ∧
    convertYUVtoRGB m cu cv buf ((ly * m.width + x) * 4 + 1)
        = yuvG (buf ((ly * m.width + x) * 4))
            (or128 (cu ((min (y + 1) (m.lines - 1)) * m.width + x)))
            (or128 (cv (y * m.width + x))) ∧
    convertYUVtoRGB m cu cv buf ((ly * m.width + x) * 4 + 2)
        = yuvB (buf ((ly * m.width + x) * 4))
            (or128 (cu ((min (y + 1) (m.lines - 1)) * m.width + x))) ∧
    convertYUVtoRGB m cu cv buf ((ly * m.width + x) * 4 + 3)
        = buf ((ly * m.width + x) * 4 + 3) := by
  obtain ⟨l1, l2, hsplit⟩ := List.append_of_mem hy
  have hnodup : (evenRows m.lines).Nodup :=
    List.Nodup.map (fun a b h => by omega) (List.nodup_range _)
  rw [hsplit] at hnodup
  obtain ⟨hnd1, hnd2, hdisj12⟩ := List.nodup_append.mp hnodup
  have hy_not_l1 : y ∉ l1 := fun hmem => hdisj12 hmem (List.mem_cons_self _ _)
  have hy_not_l2 : y ∉ l2 := (List.nodup_cons.mp hnd2).1
  obtain ⟨k, hkr, hyk⟩ := List.mem_map.mp hy
  rw [List.mem_range] at hkr
  have hb := lyRange_mem_bounds hly
  have hlyle : ly ≤ y + 1 := le_trans hb.2 (min_le_left _ _)
  have hside : ∀ (y' : ℕ), y' ∈ evenRows m.lines → y' ≠ y →
      ∀ x' ∈ List.range m.width,
      ∀ ly' ∈ lyRange y' (min (y' + 1) (m.lines - 1)), ∀ (c : ℕ), c < 3 →
      ∀ (c₀ : ℕ), c₀ < 4 →
      (ly * m.width + x) * 4 + c₀ ≠ (ly' * m.width + x') * 4 + c := by
    intro y' hy' hne x' hx' ly' hly' c hc c₀ hc₀ heq
    obtain ⟨k', hkr', hyk'⟩ := List.mem_map.mp hy'
    rw [List.mem_range] at hkr'
    have hb' := lyRange_mem_bounds hly'
    have hlyle' : ly' ≤ y' + 1 := le_trans hb'.2 (min_le_left _ _)
    rw [List.mem_range] at hx'
    have h4 : ly * m.width + x = ly' * m.width + x' ∧ c₀ = c := by omega
    have hll := (pix_index_inj hx hx' h4.1).1
    omega
  have hrowfold : convertYUVtoRGB m cu cv buf
      = l2.foldl (fun b2 y' => (List.range m.width).foldl
          (fun b3 x' => convertYUVtoRGBStep m cu cv y' x' b3) b2)
        ((List.range m.width).foldl (fun b3 x' => convertYUVtoRGBStep m cu cv y x' b3)
          (l1.foldl (fun b2 y' => (List.range m.width).foldl
            (fun b3 x' => convertYUVtoRGBStep m cu cv y' x' b3) b2) buf)) := by
    unfold convertYUVtoRGB
    rw [hsplit, List.foldl_append, List.foldl_cons]
  have hl1 : ∀ (c₀ : ℕ), c₀ < 4 →
      (l1.foldl (fun b2 y' => (List.range m.width).foldl
        (fun b3 x' => convertYUVtoRGBStep m cu cv y' x' b3) b2) buf)
        ((ly * m.width + x) * 4 + c₀) = buf ((ly * m.width + x) * 4 + c₀) := by
    intro c₀ hc₀
    refine convertYUVtoRGB_rows_ne _ _ _ _ _ _ ?_
    intro y' hy' x' hx' ly' hly' c hc
    have hy'mem : y' ∈ evenRows m.lines := by
      rw [hsplit]
      exact List.mem_append_left _ hy'
    have hy'ne : y' ≠ y := fun h => hy_not_l1 (h ▸ hy')
    exact hside y' hy'mem hy'ne x' hx' ly' hly' c hc c₀ hc₀
  have hl2 : ∀ (b' : ℕ → ℕ) (c₀ : ℕ), c₀ < 4 →
      (l2.foldl (fun b2 y' => (List.range m.width).foldl
        (fun b3 x' => convertYUVtoRGBStep m cu cv y' x' b3) b2) b')
        ((ly * m.width + x) * 4 + c₀) = b' ((ly * m.width + x) * 4 + c₀) := by
    intro b' c₀ hc₀
    refine convertYUVtoRGB_rows_ne _ _ _ _ _ _ ?_
    intro y' hy' x' hx' ly' hly' c hc
    have hy'mem : y' ∈ evenRows m.lines := by
      rw [hsplit]
      exact List.mem_append_right _ (List.mem_cons_of_mem _ hy')
    have hy'ne : y' ≠ y := fun h => hy_not_l2 (h ▸ hy')
    exact hside y' hy'mem hy'ne x' hx' ly' hly' c hc c₀ hc₀
  obtain ⟨hr0, hr1, hr2⟩ := convertYUVtoRGB_row_own m cu cv y
    (l1.foldl (fun b2 y' => (List.range m.width).foldl
      (fun b3 x' => convertYUVtoRGBStep m cu cv y' x' b3) b2) buf) x hx ly hly
  have hY : (l1.foldl (fun b2 y' => (List.range m.width).foldl
      (fun b3 x' => convertYUVtoRGBStep m cu cv y' x' b3) b2) buf)
      ((ly * m.width + x) * 4) = buf ((ly * m.width + x) * 4) := by
    have := hl1 0 (by omega)
    simpa using this
  refine ⟨?_, ?_, ?_, ?_⟩
  · rw [hrowfold]
    have h2 := hl2 ((List.range m.width).foldl
      (fun b3 x' => convertYUVtoRGBStep m cu cv y x' b3)
      (l1.foldl (fun b2 y' => (List.range m.width).foldl
        (fun b3 x' => convertYUVtoRGBStep m cu cv y' x' b3) b2) buf)) 0 (by omega)
    simp only [Nat.add_zero] at h2
    rw [h2, hr0, hY]
  · rw [hrowfold, hl2 _ 1 (by omega), hr1, hY]
  · rw [hrowfold, hl2 _ 2 (by omega), hr2, hY]
  · rw [hrowfold, hl2 _ 3 (by omega)]
    have hrow3 : ((List.range m.width).foldl
        (fun b3 x' => convertYUVtoRGBStep m cu cv y x' b3)
        (l1.foldl (fun b2 y' => (List.range m.width).foldl
          (fun b3 x' => convertYUVtoRGBStep m cu cv y' x' b3) b2) buf))
        ((ly * m.width + x) * 4 + 3)
        = (l1.foldl (fun b2 y' => (List.range m.width).foldl
          (fun b3 x' => convertYUVtoRGBStep m cu cv y' x' b3) b2) buf)
          ((ly * m.width + x) * 4 + 3) := by
      refine convertYUVtoRGB_row_ne _ _ _ _ _ _ _ ?_
      intro x' hx' ly' hly' c hc
      omega
    rw [hrow3, hl1 3 (by omega)]

/-- C6 witness: the reconstruction characterization at Robot 36,
line pair (0, 1), column 0, on constant planes and buffer. -/
theorem c6_yuv_rgb_shared_chroma_witness :
    (0 ∈ evenRows ROBOT36.lines ∧ 0 < ROBOT36.width ∧
      0 ∈ lyRange 0 (min (0 + 1) (ROBOT36.lines - 1))) ∧
    (convertYUVtoRGB ROBOT36 (fun _ => 0) (fun _ => 0) (fun _ => 100)
        ((0 * ROBOT36.width + 0) * 4)
      = yuvR ((fun (_ : ℕ) => 100) ((0 * ROBOT36.width + 0) * 4))
          (or128 ((fun (_ : ℕ) => 0) (0 * ROBOT36.width + 0))) ∧
    convertYUVtoRGB ROBOT36 (fun _ => 0) (fun _ => 0) (fun _ => 100)
        ((0 * ROBOT36.width + 0) * 4 + 1)
      = yuvG ((fun (_ : ℕ) => 100) ((0 * ROBOT36.width + 0) * 4))
          (or128 ((fun (_ : ℕ) => 0)
            ((min (0 + 1) (ROBOT36.lines - 1)) * ROBOT36.width + 0)))
          (or128 ((fun (_ : ℕ) => 0) (0 * ROBOT36.width + 0))) ∧
    convertYUVtoRGB ROBOT36 (fun _ => 0) (fun _ => 0) (fun _ => 100)
        ((0 * ROBOT36.width + 0) * 4 + 2)
      = yuvB ((fun (_ : ℕ) => 100) ((0 * ROBOT36.width + 0) * 4))
          (or128 ((fun (_ : ℕ) => 0)
            ((min (0 + 1) (ROBOT36.lines - 1)) * ROBOT36.width + 0))) ∧
    convertYUVtoRGB ROBOT36 (fun _ => 0) (fun _ => 0) (fun _ => 100)
        ((0 * ROBOT36.width + 0) * 4 + 3)
      = (fun (_ : ℕ) => 100) ((0 * ROBOT36.width + 0) * 4 + 3)) :=
  ⟨⟨by decide, by decide, by decide⟩,
    c6_yuv_rgb_shared_chroma ROBOT36 (fun _ => 0) (fun _ => 0) (fun _ => 100) 0 0 0
      (by decide) (by decide) (by decide)⟩

/-- C6 counterexample: a stored V-plane byte of 0 is treated as the
neutral 128 by the code (`value || 128`), so the decoded red of a pixel
with provisional luma 100 is 100; the claim's literal reading
`clamp(round(Y + 1.402·(0 − 128)))` gives 0. -/
theorem c6_counterexample :
    or128 0 = 128 ∧
    convertYUVtoRGBStep ROBOT36 (fun _ => 0) (fun _ => 0) 0 0 (fun _ => 100) 0 = 100 ∧
    (clamp255 ((JQ.ofInt 100 +
      (⟨1402, 1000⟩ : JQ) * (JQ.ofInt 0 - JQ.ofInt 128)).round)).toNat = 0 ∧
    ¬ ((100 : ℕ) = 0) := by
  refine ⟨by decide, by decide, by decide, by decide⟩

/-! ### C10 — alpha channel is always 255 -/

theorem foldl_preserves {α β : Type} (P : β → Prop) (f : β → α → β) :
    ∀ (l : List α), (∀ b a, a ∈ l → P b → P (f b a)) → ∀ b, P b → P (l.foldl f b)
  | [], _, _, hb => hb
  | hd :: tl, hf, b, hb =>
    foldl_preserves P f tl (fun b' a ha => hf b' a (List.mem_cons_of_mem _ ha)) _
      (hf b hd (List.mem_cons_self _ _) hb)

theorem decodeScanLine_alpha (d : Detector) (m : SSTVMode) (rate : ℕ) (len sp : ℤ)
    (y ch : ℕ) (hch : ch < 3) (b : ℕ → ℕ) (bound : ℕ)
    (hb : ∀ j, j % 4 = 3 → j < bound → b j = 255) :
    ∀ j, j % 4 = 3 → j < bound → (decodeScanLine d m rate len sp y ch b).1 j = 255 := by
  intro j hj hjb
  simp only [decodeScanLine]
  refine foldl_preserves
    (fun (bs : (ℕ → ℕ) × Bool) => ∀ j', j' % 4 = 3 → j' < bound → bs.1 j' = 255)
    _ (List.range m.width) ?_ (b, false) hb j hj hjb
  intro bs x hx hP
  by_cases hflag : bs.2
  · simp only [hflag, if_true]
    exact hP
  · simp only [hflag, if_false, Bool.false_eq_true]
    split
    · exact hP
    · intro j' hj' hjb'
      dsimp only
      by_cases h3 : j' = ((y * m.width + x) * 4) + 3
      · rw [h3, writePix_self]
      · rw [writePix_ne _ _ _ _ h3, writePix_ne _ _ _ _ (by omega)]
        exact hP j' hj' hjb'

theorem decodeScanLineYUV_alpha (d : Detector) (m : SSTVMode) (off : JQ) (rate : ℕ)
    (len sp : ℤ) (y : ℕ) (b : ℕ → ℕ) (bound : ℕ)
    (hb : ∀ j, j % 4 = 3 → j < bound → b j = 255) :
    ∀ j, j % 4 = 3 → j < bound →
      (decodeScanLineYUV d m off rate len sp y b).1 j = 255 := by
  intro j hj hjb
  simp only [decodeScanLineYUV]
  refine foldl_preserves
    (fun (bs : (ℕ → ℕ) × Bool) => ∀ j', j' % 4 = 3 → j' < bound → bs.1 j' = 255)
    _ (List.range m.width) ?_ (b, false) hb j hj hjb
  intro bs x hx hP
  by_cases hflag : bs.2
  · simp only [hflag, if_true]
    exact hP
  · simp only [hflag, if_false, Bool.false_eq_true]
    split
    · exact hP
    · intro j' hj' hjb'
      dsimp only
      by_cases h3 : j' = ((y * m.width + x) * 4) + 3
      · rw [h3, writePix_self]
      · rw [writePix_ne _ _ _ _ h3, writePix_ne _ _ _ _ (by omega),
          writePix_ne _ _ _ _ (by omega), writePix_ne _ _ _ _ (by omega)]
        exact hP j' hj' hjb'

theorem decodeScanLinePD_alpha (d : Detector) (m : SSTVMode) (rate : ℕ)
    (sp : ℤ) (y : ℕ) (b cu cv : ℕ → ℕ) (bound : ℕ)
    (hb : ∀ j, j % 4 = 3 → j < bound → b j = 255) :
    ∀ j, j % 4 = 3 → j < bound →
      (decodeScanLinePD d m rate sp y b cu cv).1.1 j = 255 := by
  intro j hj hjb
  simp only [decodeScanLinePD]
  refine foldl_preserves
    (fun (s : (ℕ → ℕ) × (ℕ → ℕ) × (ℕ → ℕ)) =>
      ∀ j', j' % 4 = 3 → j' < bound → s.1 j' = 255)
    _ (List.range m.width) ?_ (b, cu, cv) hb j hj hjb
  intro s x hx hP
  intro j' hj' hjb'
  dsimp only
  by_cases h3 : j' = (((min (y + 1) (m.lines - 1)) * m.width + x) * 4) + 3
  · rw [h3, writePix_self]
  · rw [writePix_ne _ _ _ _ h3, writePix_ne _ _ _ _ (by omega),
      writePix_ne _ _ _ _ (by omega), writePix_ne _ _ _ _ (by omega)]
    by_cases h4 : j' = ((y * m.width + x) * 4) + 3
    · rw [h4, writePix_self]
    · rw [writePix_ne _ _ _ _ h4, writePix_ne _ _ _ _ (by omega),
        writePix_ne _ _ _ _ (by omega), writePix_ne _ _ _ _ (by omega)]
      exact hP j' hj' hjb'

theorem convertPDtoRGB_alpha (m : SSTVMode) (cu cv b : ℕ → ℕ) (j : ℕ)
    (hj : j % 4 = 3) : convertPDtoRGB m cu cv b j = b j := by
  simp only [convertPDtoRGB]
  refine foldl_preserves (fun b2 => b2 j = b j) _ (List.range m.lines) ?_ b rfl
  intro b2 y hy hb2
  refine foldl_preserves (fun b3 => b3 j = b j) _ (List.range m.width) ?_ b2 hb2
  intro b3 x hx hb3
  dsimp only
  rw [writePix_ne _ _ _ _ (by omega), writePix_ne _ _ _ _ (by omega),
    writePix_ne _ _ _ _ (by omega)]
  exact hb3

theorem convertYUVtoRGB_alpha (m : SSTVMode) (cu cv b : ℕ → ℕ) (j : ℕ)
    (hj : j % 4 = 3) : convertYUVtoRGB m cu cv b j = b j := by
  unfold convertYUVtoRGB
  refine convertYUVtoRGB_rows_ne m cu cv (evenRows m.lines) b j ?_
  intro y' hy' x' hx' ly' hly' c hc
  omega

/-- C10: `decodeImage` allocates the pixel buffer with every alpha cell
255, every scan-line pass (RGB with a channel in 0..2, YUV, PD) either
rewrites an alpha cell with 255 or leaves it unchanged, both color
reconstructions leave alpha cells unchanged, and hence every buffer the
decode pipeline returns has 255 in every alpha cell. -/
theorem c10_alpha_255 (detect : Detector) (m : SSTVMode) (shift : JQ) (rate : ℕ)
    (len visEnd : ℤ) (passes : List DecodePass) (cu cv : ℕ → ℕ)
    (hch : ∀ d l sp y ch, DecodePass.rgbLine d l sp y ch ∈ passes → ch < 3) :
    (∀ j, j % 4 = 3 → j < m.width * m.lines * 4 → initPixels m j = 255) ∧
    (∀ result, decodeImagePixels detect m shift rate len visEnd passes cu cv
        = Except.ok result →
      ∀ j, j % 4 = 3 → j < m.width * m.lines * 4 → result j = 255) := by
  have hinit : ∀ j, j % 4 = 3 → j < m.width * m.lines * 4 → initPixels m j = 255 := by
    intro j hj hjb
    unfold initPixels
    rw [if_pos (by omega), if_pos hj]
  refine ⟨hinit, ?_⟩
  intro result hres j hj hjb
  unfold decodeImagePixels at hres
  rcases hacq : acquireFirstSync detect m shift rate len visEnd with _ | p
  · rw [hacq] at hres
    exact absurd hres (by simp)
  · rw [hacq] at hres
    have hres' : result = applyColorConvert m cu cv
        (passes.foldl (applyPass m rate) (initPixels m)) := by
      injection hres with h
      exact h.symm
    subst hres'
    have hfold : ∀ j', j' % 4 = 3 → j' < m.width * m.lines * 4 →
        (passes.foldl (applyPass m rate) (initPixels m)) j' = 255 := by
      refine foldl_preserves
        (fun (b : ℕ → ℕ) => ∀ j', j' % 4 = 3 → j' < m.width * m.lines * 4 → b j' = 255)
        (applyPass m rate) passes ?_ (initPixels m) hinit
      intro b pass hmem hP
      cases pass with
      | rgbLine d l sp y ch =>
        exact decodeScanLine_alpha d m rate l sp y ch (hch d l sp y ch hmem) b _ hP
      | yuvLine d off l sp y =>
        exact decodeScanLineYUV_alpha d m off rate l sp y b _ hP
      | pdLine d pcu pcv sp y =>
        exact decodeScanLinePD_alpha d m rate sp y b pcu pcv _ hP
    unfold applyColorConvert
    cases hcf : m.colorFormat with
    | YUV =>
      dsimp only
      rw [convertYUVtoRGB_alpha m cu cv _ j hj]
      exact hfold j hj hjb
    | RGB =>
      dsimp only
      exact hfold j hj hjb
    | PD =>
      dsimp only
      rw [convertPDtoRGB_alpha m cu cv _ j hj]
      exact hfold j hj hjb

/-- C10 witness: the alpha theorem at Robot 36 with no passes. -/
theorem c10_alpha_255_witness :
    (∀ (d : Detector) (l sp : ℤ) (y ch : ℕ),
      DecodePass.rgbLine d l sp y ch ∈ ([] : List DecodePass) → ch < 3) ∧
    ((∀ j, j % 4 = 3 → j < ROBOT36.width * ROBOT36.lines * 4 →
        initPixels ROBOT36 j = 255) ∧
      (∀ result, decodeImagePixels timingDetect ROBOT36 ⟨0, 1⟩ 48000 100000 0
          ([] : List DecodePass) (fun _ => 0) (fun _ => 0) = Except.ok result →
        ∀ j, j % 4 = 3 → j < ROBOT36.width * ROBOT36.lines * 4 → result j = 255)) :=
  ⟨fun d l sp y ch h => absurd h (List.not_mem_nil _),
    c10_alpha_255 timingDetect ROBOT36 ⟨0, 1⟩ 48000 100000 0 [] (fun _ => 0) (fun _ => 0)
      (fun d l sp y ch h => absurd h (List.not_mem_nil _))⟩
